import Mathlib

/-!
Verification development for the download correlation and stream-capture
engine of the KTHX media generator server (src/server.mjs).

The JavaScript source is shallowly embedded: pure helpers become Lean
functions on String / List Char, JS numbers become Nat / Int, JS
string-or-null values become Option String (with the empty string playing
the falsy role where the source only tests truthiness), the capture
session becomes an explicit state machine driven by a list of serialized
queue events, and the file system becomes an association list from paths
to byte sizes.  Network fetches are supplied as per-response oracles.
Wall-clock timestamps on stream events and the floating point overflow of
JS Number (relevant only for part indices of three hundred plus digits)
are not modelled.
-/

namespace KthxMedia

/-- JS String.prototype.trim, over the character list so that it reduces
in the kernel (the JS whitespace set is approximated by
Char.isWhitespace). -/
def jsTrim (s : String) : String :=
  String.mk
    (((s.toList.dropWhile Char.isWhitespace).reverse.dropWhile
      Char.isWhitespace).reverse)

/-- JS String.prototype.toLowerCase over the character list. -/
def lowerStr (s : String) : String := String.mk (s.toList.map Char.toLower)

/-- JS String.prototype.split for a one-character separator. -/
def splitOnCharAux (sep : Char) : List Char → List Char → List String
  | [], acc => [String.mk acc.reverse]
  | c :: cs, acc =>
    if c == sep then String.mk acc.reverse :: splitOnCharAux sep cs []
    else splitOnCharAux sep cs (c :: acc)

/-- JS String.prototype.split for a one-character separator. -/
def splitOnChar (sep : Char) (s : String) : List String :=
  splitOnCharAux sep s.toList []

/-- Whether the first list is an initial segment of the second. -/
def listIsPrefix : List Char → List Char → Bool
  | [], _ => true
  | _ :: _, [] => false
  | a :: as, b :: bs => a == b && listIsPrefix as bs

/-- JS String.prototype.startsWith, over character lists. -/
def strStartsWith (s pat : String) : Bool := listIsPrefix pat.toList s.toList

/-- Node path.posix.basename: strip trailing slashes, then keep the part
after the last remaining slash. -/
def basename (s : String) : String :=
  let r := s.toList.reverse.dropWhile (fun c => c == '/')
  String.mk (r.takeWhile (fun c => c != '/')).reverse

/-- Node path.extname restricted to the final path segment: the suffix
starting at the last dot of the basename, unless that dot is the first
character. -/
def extname (p : String) : String :=
  let b := (basename p).toList
  let k := (b.reverse.takeWhile (fun c => c != '.')).length
  if k == b.length then ""
  else if b.length - 1 - k == 0 then ""
  else String.mk (b.drop (b.length - 1 - k))

/-- sanitizeFileName from the source: every character outside
[a-zA-Z0-9._-] becomes an underscore. -/
def sanitizeFileName (s : String) : String :=
  String.mk (s.toList.map (fun c =>
    if c.isAlpha || c.isDigit || c == '.' || c == '_' || c == '-' then c else '_'))

/-- applyExtension from the source: append ext only when there is an ext
to append and the name has no extension yet. -/
def applyExtension (fileName : String) (ext : String) : String :=
  if ext == "" then fileName
  else if extname fileName != "" then fileName
  else fileName ++ ext

/-- normalizeContentType from the source: text before the first semicolon,
trimmed and lower-cased. -/
def normalizeContentType (ct : String) : String :=
  lowerStr (jsTrim (((splitOnChar ';' ct).headD "")))

/-- MIME_EXTENSION_MAP from the source. -/
def mimeExtensionMap (ct : String) : Option String :=
  if ct == "image/jpeg" then some ".jpg"
  else if ct == "image/jpg" then some ".jpg"
  else if ct == "image/png" then some ".png"
  else if ct == "image/webp" then some ".webp"
  else if ct == "image/gif" then some ".gif"
  else if ct == "image/svg+xml" then some ".svg"
  else if ct == "application/pdf" then some ".pdf"
  else if ct == "text/csv" then some ".csv"
  else if ct == "application/csv" then some ".csv"
  else if ct == "text/plain" then some ".txt"
  else if ct == "text/markdown" then some ".md"
  else if ct == "application/json" then some ".json"
  else if ct == "application/zip" then some ".zip"
  else if ct == "application/x-zip-compressed" then some ".zip"
  else if ct == "application/msword" then some ".doc"
  else if ct == "application/vnd.openxmlformats-officedocument.wordprocessingml.document" then some ".docx"
  else if ct == "application/vnd.ms-excel" then some ".xls"
  else if ct == "application/vnd.openxmlformats-officedocument.spreadsheetml.sheet" then some ".xlsx"
  else if ct == "application/vnd.ms-powerpoint" then some ".ppt"
  else if ct == "application/vnd.openxmlformats-officedocument.presentationml.presentation" then some ".pptx"
  else none

/-- extensionFromContentType from the source. -/
def extensionFromContentType (contentType : String) : String :=
  let normalized := normalizeContentType contentType
  if normalized == "" then ""
  else match mimeExtensionMap normalized with
  | some mapped => mapped
  | none =>
    let parts := splitOnChar '/' normalized
    let ty := parts.headD ""
    let subty := (parts.drop 1).headD ""
    if ty == "" || subty == "" then ""
    else
      let simplified := (splitOnChar '+' subty).headD ""
      if simplified == "" then ""
      else if ty == "image"
          && simplified.toList.all (fun c => c.isAlpha || c.isDigit || c == '-') then
        "." ++ lowerStr simplified
      else if ty == "text" && simplified == "csv" then ".csv"
      else ""

/-- isJsonContentType from the source. -/
def isJsonContentType (ct : String) : Bool :=
  normalizeContentType ct == "application/json"

/-- Case-insensitive comparison of a character with a lower-case letter. -/
def lcEq (c : Char) (d : Char) : Bool := c.toLower == d

/-- Matcher for the lookahead of IMAGE_STREAM_PART_SEGMENT_RE: a dot
followed by one or more non-dot characters running to the end of the
name. -/
def finalExtSuffix : List Char → Bool
  | c :: rest => c == '.' && !rest.isEmpty && rest.all (fun x => x != '.')
  | [] => false

/-- The literal ".part" head of the part segment regex, case
insensitive. -/
def partHeadOk (c0 c1 c2 c3 c4 : Char) : Bool :=
  c0 == '.' && lcEq c1 'p' && lcEq c2 'a' && lcEq c3 'r' && lcEq c4 't'

/-- The \d+ with its lookahead: the maximal digit run, accepted when it
is non-empty and followed by nothing or by a final extension. -/
def partDigitsOf (rest : List Char) : Option (List Char) :=
  if !(rest.takeWhile Char.isDigit).isEmpty
      && ((rest.drop (rest.takeWhile Char.isDigit).length).isEmpty
        || finalExtSuffix (rest.drop (rest.takeWhile Char.isDigit).length)) then
    some (rest.takeWhile Char.isDigit)
  else none

/-- Match the regex .part\d+(?=\.[^.]+$|$) anchored at the head of the
list, returning the digit run of the part index.  The greedy \d+ needs
no backtracking: with fewer digits the lookahead would start at a digit
and fail both alternatives. -/
def partMatchAt : List Char → Option (List Char)
  | c0 :: c1 :: c2 :: c3 :: c4 :: rest =>
    if partHeadOk c0 c1 c2 c3 c4 then partDigitsOf rest else none
  | _ => none

/-- Leftmost match of the part segment regex anywhere in the name,
mirroring RegExp.exec. -/
def findPartDigits : List Char → Option (List Char)
  | [] => none
  | c :: rest =>
    match partMatchAt (c :: rest) with
    | some d => some d
    | none => findPartDigits rest

/-- Numeric value of a digit run, the Nat image of JS Number on an
all-digit string. -/
def digitsToNat (l : List Char) : Nat :=
  l.foldl (fun acc c => acc * 10 + (c.toNat - '0'.toNat)) 0

/-- isLikelyImageStreamPartName from the source, on an actual string
argument. -/
def isLikelyImageStreamPartName (v : String) : Bool :=
  if jsTrim v == "" then false
  else (findPartDigits (basename (jsTrim v)).toList).isSome

/-- Result record of parseImageStreamFrameInfo. -/
structure FrameParse where
  fileName : String
  isPart : Bool
  partIndex : Option Nat
  isFinal : Bool
deriving Repr, DecidableEq

/-- The name normalization shared by the classifier: basename of the
trimmed string, empty for a blank or absent value. -/
def nameOfValue (value : Option String) : String :=
  match value with
  | some v => if jsTrim v != "" then basename (jsTrim v) else ""
  | none => ""

/-- parseImageStreamFrameInfo from the source; the argument is the JS
value, with none standing for null or a non-string. -/
def parseImageStreamFrameInfo (value : Option String) : FrameParse :=
  if nameOfValue value == "" then
    { fileName := "", isPart := false, partIndex := none, isFinal := false }
  else
    match findPartDigits (nameOfValue value).toList with
    | none =>
      { fileName := nameOfValue value, isPart := false
        partIndex := none, isFinal := true }
    | some digits =>
      { fileName := nameOfValue value, isPart := true
        partIndex := some (digitsToNat digits), isFinal := false }

/-- normalizeMatchFileName from the source: lower-cased basename of the
trimmed value, empty when blank. -/
def normalizeMatchFileName (v : String) : String :=
  if jsTrim v == "" then "" else lowerStr (basename (jsTrim v))

/-- The portion of a parsed URL the engine reads: hostname, pathname, the
id query parameter, and the full href (used for dedup fallback and event
payloads). -/
structure Url where
  hostname : String := ""
  pathname : String := ""
  idParam : Option String := none
  raw : String := ""
deriving Repr, DecidableEq

/-- Decoded metadata JSON body: the fields the engine reads, with Option
for null or absent values. -/
structure FileInfo where
  file_name : Option String := none
  file_size_bytes : Option Int := none
  download_url : Option Url := none
  detail_message : Option String := none
deriving Repr, DecidableEq

/-- isLikelyUploadEchoMetadata from the source: neither a non-blank
file_name nor a positive file_size_bytes. -/
def isLikelyUploadEchoMetadata (fi : FileInfo) : Bool :=
  let hasFileName :=
    match fi.file_name with
    | some s => jsTrim s != ""
    | none => false
  let hasFileSize :=
    match fi.file_size_bytes with
    | some n => n > 0
    | none => false
  !hasFileName && !hasFileSize

/-- One StreamEvent record.  Only the fields the engine reads back are
modelled; absent or null JS fields are none, and the wall-clock ts field
is omitted.  JS booleans read through strict === true comparisons are
Bool. -/
structure StreamEvent where
  type : String := ""
  source : String := ""
  responseUrl : Option String := none
  downloadUrl : Option String := none
  metadataId : Option String := none
  sourceFileName : Option String := none
  fileName : Option String := none
  outputPath : Option String := none
  byteLength : Option Int := none
  contentType : Option String := none
  isStreamPart : Bool := false
  streamPartIndex : Option Int := none
  isFinalStreamFrame : Bool := false
  reason : Option String := none
  message : String := ""
  savedCountField : Option Nat := none
  streamFrameUrl : Option String := none
  conversationId : Option String := none
  turnTraceId : Option String := none
  resultField : Option String := none
deriving Repr, DecidableEq

/-- One entry of savedFiles, as produced by saveBufferToDisk and
decorated by handleFileBuffer. -/
structure SavedFileEntry where
  filePath : String := ""
  fileName : String := ""
  sourceFileName : Option String := none
  byteLength : Option Int := none
  contentType : String := ""
  metadataId : Option String := none
  isStreamPart : Bool := false
  streamPartIndex : Option Int := none
  isFinalStreamFrame : Bool := false
deriving Repr, DecidableEq

/-- Keep-first deduplication with an explicit seen accumulator: the order
preserving semantics of spreading a JS Set built from an array. -/
def dedupFirst (seen : List String) : List String → List String
  | [] => []
  | x :: xs =>
    if x ∈ seen then dedupFirst seen xs
    else x :: dedupFirst (x :: seen) xs

/-- The SaveResult aggregate.  metadataIds entries are strings with the
empty string playing the role of the falsy values removed by
filter(Boolean); stream event and saved file entries are always real
records in the source, so their filter(Boolean) is the identity. -/
structure SaveResult where
  savedCount : Nat := 0
  savedFiles : List SavedFileEntry := []
  metadataIds : List String := []
  streamEvents : List StreamEvent := []
deriving Repr, DecidableEq

/-- buildSaveResult from the source: the metadataIds array is filtered of
falsy entries and deduplicated preserving first occurrence. -/
def buildSaveResult (savedCount : Nat := 0) (savedFiles : List SavedFileEntry := [])
    (metadataIds : List String := []) (streamEvents : List StreamEvent := []) :
    SaveResult :=
  { savedCount := savedCount
    savedFiles := savedFiles
    metadataIds := dedupFirst [] (metadataIds.filter (fun s => s != ""))
    streamEvents := streamEvents }

/-- mergeSaveResults from the source, for a present extra argument. -/
def mergeSaveResults (base extra : SaveResult) : SaveResult :=
  buildSaveResult (base.savedCount + extra.savedCount)
    (base.savedFiles ++ extra.savedFiles)
    (base.metadataIds ++ extra.metadataIds)
    (base.streamEvents ++ extra.streamEvents)

/-- A SaveResult is normalized when it is invariant under the
buildSaveResult cleanup of its metadataIds: the shape of every aggregate
the engine actually constructs. -/
def SaveResult.normalized (r : SaveResult) : Prop :=
  r.metadataIds = dedupFirst [] (r.metadataIds.filter (fun s => s != ""))

instance (r : SaveResult) : Decidable r.normalized := by
  unfold SaveResult.normalized; infer_instance

/-- Frame classification snapshot stored per metadata id by the first
pass of retainLatestImageOnly. -/
structure FrameInfoR where
  sourceFileName : String := ""
  isFinalStreamFrame : Bool := false
  isStreamPart : Bool := false
  streamPartIndex : Option Int := none
deriving Repr, DecidableEq

/-- One normalized candidate of the second pass of
retainLatestImageOnly. -/
structure Candidate where
  filePath : String := ""
  fileName : String := ""
  sourceFileName : String := ""
  byteLength : Option Int := none
  contentType : String := ""
  metadataId : Option String := none
  isStreamPart : Bool := false
  streamPartIndex : Option Int := none
  isFinalStreamFrame : Bool := false
deriving Repr, DecidableEq

/-- Lookup in the frame info map (a JS Map used only through get/has). -/
def lookupInfo (m : List (String × FrameInfoR)) (k : String) : Option FrameInfoR :=
  (m.find? (fun p => p.1 == k)).map (fun p => p.2)

/-- State of the first pass over download_url_resolved events. -/
structure Phase1State where
  infoMap : List (String × FrameInfoR) := []
  finalIds : List String := []
  preferredIds : List String := []
  sawPart : Bool := false
deriving Repr

/-- First pass of retainLatestImageOnly: record frame info per metadata
id, the final frame ids in order, and the final frame ids that were
preceded by a part frame. -/
def phase1Step (st : Phase1State) (e : StreamEvent) : Phase1State :=
  if e.type != "download_url_resolved" then st
  else
    match e.metadataId with
    | none => st
    | some mid =>
      if mid == "" then st
      else
        let sourceFileName :=
          match e.sourceFileName with
          | some s => if jsTrim s != "" then basename (jsTrim s) else ""
          | none => ""
        let isFinalStreamFrame :=
          e.isFinalStreamFrame
            || (sourceFileName != "" && !isLikelyImageStreamPartName sourceFileName)
        let isStreamPart :=
          e.isStreamPart
            || (if sourceFileName != "" then isLikelyImageStreamPartName sourceFileName
                else false)
        let info : FrameInfoR :=
          { sourceFileName := sourceFileName
            isFinalStreamFrame := isFinalStreamFrame
            isStreamPart := isStreamPart
            streamPartIndex := e.streamPartIndex }
        let st := { st with infoMap := (mid, info) :: st.infoMap }
        let st := if isStreamPart then { st with sawPart := true } else st
        if isFinalStreamFrame then
          { st with
            finalIds := st.finalIds ++ [mid]
            preferredIds :=
              if st.sawPart then st.preferredIds ++ [mid] else st.preferredIds }
        else st

/-- Arguments of pushCandidate, with the JS parameter defaults. -/
structure PushArgs where
  filePath : Option String := none
  fileName : Option String := none
  sourceFileName : Option String := none
  byteLength : Option Int := none
  contentType : Option String := none
  metadataId : Option String := none
  isStreamPart : Bool := false
  streamPartIndex : Option Int := none
  isFinalStreamFrame : Bool := false
deriving Repr

/-- pushCandidate from the source: normalize one candidate, filling the
gaps from the per-id frame info of the first pass; none means the
candidate is skipped for lack of a file path. -/
def pushCandidate (infoMap : List (String × FrameInfoR)) (a : PushArgs) :
    Option Candidate :=
  match a.filePath with
  | none => none
  | some fp =>
    if jsTrim fp == "" then none
    else
      let normalizedPath := jsTrim fp
      let normalizedMetadataId :=
        match a.metadataId with
        | some s => if s != "" then some s else none
        | none => none
      let metadataFrameInfo :=
        match normalizedMetadataId with
        | some mid => lookupInfo infoMap mid
        | none => none
      let normalizedSourceFileName :=
        match a.sourceFileName with
        | some s =>
          if jsTrim s != "" then basename (jsTrim s)
          else (metadataFrameInfo.map (fun i => i.sourceFileName)).getD ""
        | none => (metadataFrameInfo.map (fun i => i.sourceFileName)).getD ""
      let normalizedIsFinalStreamFrame :=
        a.isFinalStreamFrame
          || (normalizedSourceFileName != ""
              && !isLikelyImageStreamPartName normalizedSourceFileName)
          || (metadataFrameInfo.map (fun i => i.isFinalStreamFrame)).getD false
      let normalizedIsStreamPart :=
        a.isStreamPart
          || (if normalizedSourceFileName != "" then
                isLikelyImageStreamPartName normalizedSourceFileName
              else false)
          || (metadataFrameInfo.map (fun i => i.isStreamPart)).getD false
      let normalizedStreamPartIndex :=
        match a.streamPartIndex with
        | some n => some n
        | none => (metadataFrameInfo.map (fun i => i.streamPartIndex)).getD none
      some
        { filePath := normalizedPath
          fileName :=
            match a.fileName with
            | some s => if jsTrim s != "" then basename (jsTrim s) else basename normalizedPath
            | none => basename normalizedPath
          sourceFileName := normalizedSourceFileName
          byteLength := a.byteLength
          contentType := a.contentType.getD ""
          metadataId := normalizedMetadataId
          isStreamPart := normalizedIsStreamPart
          streamPartIndex := normalizedStreamPartIndex
          isFinalStreamFrame := normalizedIsFinalStreamFrame }

/-- pushCandidate arguments drawn from a file_saved stream event. -/
def pushArgsOfEvent (e : StreamEvent) : PushArgs :=
  { filePath := e.outputPath
    fileName := e.fileName
    sourceFileName := e.sourceFileName
    byteLength := e.byteLength
    contentType := e.contentType
    metadataId := e.metadataId
    isStreamPart := e.isStreamPart
    streamPartIndex := e.streamPartIndex
    isFinalStreamFrame := e.isFinalStreamFrame }

/-- pushCandidate arguments drawn from a savedFiles entry. -/
def pushArgsOfSaved (f : SavedFileEntry) : PushArgs :=
  { filePath := some f.filePath
    fileName := some f.fileName
    sourceFileName := f.sourceFileName
    byteLength := f.byteLength
    contentType := some f.contentType
    metadataId := f.metadataId
    isStreamPart := f.isStreamPart
    streamPartIndex := f.streamPartIndex
    isFinalStreamFrame := f.isFinalStreamFrame }

/-- The ordered candidate list of retainLatestImageOnly: file_saved
events first, then the savedFiles entries. -/
def orderedCandidatesOf (infoMap : List (String × FrameInfoR))
    (streamEvents : List StreamEvent) (savedFiles : List SavedFileEntry) :
    List Candidate :=
  ((streamEvents.filter (fun e => e.type == "file_saved")).filterMap
      (fun e => pushCandidate infoMap (pushArgsOfEvent e)))
    ++ savedFiles.filterMap (fun f => pushCandidate infoMap (pushArgsOfSaved f))

/-- The file system as seen by the reducer: an association from path to
byte size; existsSync is membership. -/
abbrev Disk := List (String × Nat)

/-- existsSync on the modelled disk. -/
def diskHas (d : Disk) (p : String) : Bool :=
  (d.find? (fun q => q.1 == p)).isSome

/-- stat().size on the modelled disk. -/
def diskSize (d : Disk) (p : String) : Option Nat :=
  (d.find? (fun q => q.1 == p)).map (fun q => q.2)

/-- Reverse scan of the ordered candidates keeping, most recent first,
the first candidate of each on-disk path. -/
def collectExisting (d : Disk) : List Candidate → List String → List Candidate
  | [], _ => []
  | c :: rest, seenPaths =>
    if c.filePath == "" then collectExisting d rest seenPaths
    else if c.filePath ∈ seenPaths then collectExisting d rest seenPaths
    else if !diskHas d c.filePath then collectExisting d rest seenPaths
    else c :: collectExisting d rest (c.filePath :: seenPaths)

/-- Walk a list of metadata ids front to back, taking the first one
carried by an existing candidate. -/
def findByIdRevAux (ex : List Candidate) : List String → Option Candidate
  | [] => none
  | mid :: rest =>
    match ex.find? (fun c => c.metadataId == some mid) with
    | some c => some c
    | none => findByIdRevAux ex rest

/-- Scan a metadata id list from its end for the first id carried by one
of the existing candidates, the downward indexed loops of the source. -/
def findByIdRev (ex : List Candidate) (ids : List String) : Option Candidate :=
  findByIdRevAux ex ids.reverse

/-- The selection cascade of retainLatestImageOnly. -/
def selectCandidate (ph : Phase1State) (existing : List Candidate)
    (ordered : List Candidate) : Option Candidate :=
  match findByIdRev existing ph.preferredIds with
  | some c => some c
  | none =>
    match findByIdRev existing ph.finalIds with
    | some c => some c
    | none =>
      match existing.find? (fun c =>
          c.isFinalStreamFrame
            || (c.sourceFileName != ""
                && !isLikelyImageStreamPartName c.sourceFileName)) with
      | some c => some c
      | none =>
        match existing.head? with
        | some c => some c
        | none => ordered.getLast?

/-- retainLatestImageOnly from the source, over the modelled disk.
Returns the rewritten aggregate together with the list of paths the
reducer unlinks. -/
def retainLatestImageOnly (saveResult : SaveResult) (d : Disk) :
    SaveResult × List String :=
  let savedFiles := saveResult.savedFiles.filter (fun e => e.filePath != "")
  let streamEvents := saveResult.streamEvents
  let ph := streamEvents.foldl phase1Step {}
  let ordered := orderedCandidatesOf ph.infoMap streamEvents savedFiles
  if ordered.isEmpty then (saveResult, [])
  else
    let existing := collectExisting d ordered.reverse []
    match selectCandidate ph existing ordered with
    | none => (saveResult, [])
    | some selected =>
      let baseLen : Int := selected.byteLength.getD 0
      let byteLength : Int :=
        if diskHas d selected.filePath then
          ((diskSize d selected.filePath).map (fun n => (n : Int))).getD baseLen
        else baseLen
      let pathsToDelete :=
        dedupFirst []
          ((ordered.map (fun c => c.filePath)).filter
            (fun p => p != "" && p != selected.filePath))
      let latestMetadataId :=
        match selected.metadataId with
        | some mid => some mid
        | none => saveResult.metadataIds.getLast?
      let entry : SavedFileEntry :=
        { filePath := selected.filePath
          fileName :=
            if selected.fileName != "" then selected.fileName
            else basename selected.filePath
          byteLength := some byteLength
          contentType := selected.contentType
          metadataId := latestMetadataId
          sourceFileName :=
            if selected.sourceFileName != "" then some selected.sourceFileName
            else none
          isStreamPart := selected.isStreamPart
          streamPartIndex := selected.streamPartIndex
          isFinalStreamFrame :=
            selected.isFinalStreamFrame
              || (selected.sourceFileName != ""
                  && !isLikelyImageStreamPartName selected.sourceFileName) }
      let idsArg :=
        match latestMetadataId with
        | some s => if s != "" then [s] else []
        | none => []
      (buildSaveResult 1 [entry] idsArg streamEvents, pathsToDelete)

/-- extractFileId fallback on the path of the per-file download
endpoint: the last path segment, or none when it is empty. -/
def extractFileIdFromPath (pathname : String) : Option String :=
  if strStartsWith pathname "/backend-api/files/download/" then
    let last := (splitOnChar '/' pathname).getLastD ""
    if last == "" then none else some last
  else none

/-- extractFileId from the source: the id query parameter when truthy,
else the final segment of a files/download path. -/
def extractFileId (u : Url) : Option String :=
  match u.idParam with
  | some s => if s != "" then some s else extractFileIdFromPath u.pathname
  | none => extractFileIdFromPath u.pathname

/-- Outcome oracle of one Playwright request attempt inside the retry
loop of fetchDownloadWithRetry. -/
inductive AttemptOutcome where
  | threw (msg : String)
  | gotResponse (ok : Bool) (status : Nat) (contentType : String)
      (dispositionName : String) (bytes : Nat)
deriving Repr, DecidableEq

/-- Outcome oracle of the accelerated curl path: ok is false when the
curl process failed (including curl --fail on an HTTP error). -/
structure CurlOutcome where
  ok : Bool := false
  contentType : String := ""
  dispositionName : String := ""
  bytes : Nat := 0
  status : Nat := 200
deriving Repr, DecidableEq

/-- Per-fetch network oracle: the curl result and the stream of browser
request attempt outcomes. -/
structure FetchEnv where
  curl : CurlOutcome := {}
  attemptOutcomes : List AttemptOutcome := []
deriving Repr, DecidableEq

/-- Outcome of browser attempt n, counted from 1; a missing oracle entry
is a thrown request. -/
def attemptAt (env : FetchEnv) (n : Nat) : AttemptOutcome :=
  env.attemptOutcomes.getD (n - 1) (AttemptOutcome.threw "request failed")

/-- Successful resolver result: body bytes, content type, HTTP status and
the content-disposition file name (empty when absent). -/
structure FetchOk where
  bytes : Nat := 0
  contentType : String := ""
  status : Nat := 200
  fileName : String := ""
deriving Repr, DecidableEq

/-- A browser attempt the retry loop rejects: the request threw, or the
response status is not ok, or its content type is the metadata JSON
type. -/
def attemptFailed (env : FetchEnv) (i : Nat) : Prop :=
  match attemptAt env i with
  | AttemptOutcome.threw _ => True
  | AttemptOutcome.gotResponse ok _ ct _ _ => ok = false ∨ isJsonContentType ct = true

/-- The retry loop of fetchDownloadWithRetry: attempt is the 1-based
attempt number, remaining the attempts left.  Returns the outcome and the
list of backoff sleeps taken (350 * attempt between consecutive
attempts). -/
def runAttemptsAux (env : FetchEnv) : Nat → Nat → Except String FetchOk × List Nat
  | _, 0 => (Except.error "download_failed", [])
  | attempt, r + 1 =>
    match attemptAt env attempt with
    | AttemptOutcome.gotResponse ok status ct disp bytes =>
      if ok && !isJsonContentType ct then
        (Except.ok { bytes := bytes, contentType := ct, status := status, fileName := disp },
          [])
      else if r = 0 then (Except.error "download_failed", [])
      else
        ((runAttemptsAux env (attempt + 1) r).1,
          350 * attempt :: (runAttemptsAux env (attempt + 1) r).2)
    | AttemptOutcome.threw _ =>
      if r = 0 then (Except.error "download_failed", [])
      else
        ((runAttemptsAux env (attempt + 1) r).1,
          350 * attempt :: (runAttemptsAux env (attempt + 1) r).2)

/-- fetchDownloadWithRetry from the source: the curl fast path runs first
when preferCurl and the preferCurlDownloads config are both set, its
result returned as is on success; otherwise the four-attempt browser
retry loop runs. -/
def fetchDownloadWithRetry (preferCurl : Bool) (preferCurlDownloads : Bool)
    (env : FetchEnv) : Except String FetchOk × List Nat :=
  if preferCurl && preferCurlDownloads && env.curl.ok then
    (Except.ok
      { bytes := env.curl.bytes, contentType := env.curl.contentType
        status := env.curl.status, fileName := env.curl.dispositionName }, [])
  else runAttemptsAux env 1 4

/-- The per-run naming state.  The source field filePrefix is spelled
filePref here. -/
structure ImageRun where
  runId : String := ""
  randomizeFileNames : Bool := false
  nextFileIndex : Nat := 1
  generationMode : String := "image"
  filePref : String := "image"
deriving Repr, DecidableEq

/-- JS String.padStart(2, "0"). -/
def padStart2 (s : String) : String :=
  if s.length ≥ 2 then s else if s.length == 1 then "0" ++ s else "00"

/-- nextRandomBaseName from the source: prefix-runId-paddedIndex, and the
run with its index advanced. -/
def nextRandomBaseName (run : ImageRun) : String × ImageRun :=
  let pre := if run.filePref != "" then run.filePref else "image"
  (pre ++ "-" ++ run.runId ++ "-" ++ padStart2 (toString run.nextFileIndex),
    { run with nextFileIndex := run.nextFileIndex + 1 })

/-- The recurring JS expression imageRun?.filePrefix || "download". -/
def runFilePref (run : Option ImageRun) : String :=
  match run with
  | some r => if r.filePref != "" then r.filePref else "download"
  | none => "download"

/-- imageRun?.generationMode === "image". -/
def modeIsImage (run : Option ImageRun) : Bool :=
  match run with
  | some r => r.generationMode == "image"
  | none => false

/-- imageRun?.generationMode === "file". -/
def modeIsFile (run : Option ImageRun) : Bool :=
  match run with
  | some r => r.generationMode == "file"
  | none => false

/-- Overwriting write on the modelled disk. -/
def diskSet (d : Disk) (p : String) (n : Nat) : Disk := (p, n) :: d

/-- saveBufferToDisk from the source: derive the safe output name, write
the bytes, and return the saved entry, the advanced run, and the new
disk.  resolve(outputDir, safeName) is path concatenation since the safe
name contains no separator. -/
def saveBufferToDisk (outputDir : String) (run : Option ImageRun) (d : Disk)
    (bytes : Nat) (fileName : Option String) (contentType : String)
    (metadataId : Option String) (nowTag : Nat) :
    SavedFileEntry × Option ImageRun × Disk :=
  let ext := extensionFromContentType contentType
  let normalizedName :=
    match fileName with
    | some s => if jsTrim s != "" then basename (jsTrim s) else ""
    | none => ""
  let randomize := (run.map (fun r => r.randomizeFileNames)).getD false
  let pick : String × Option ImageRun :=
    if randomize then
      match run with
      | some r =>
        let p := nextRandomBaseName r
        (p.1, some p.2)
      | none => ("", none)
    else
      ((if normalizedName != "" then normalizedName
        else runFilePref run ++ "-" ++ toString nowTag), run)
  let safeName := applyExtension (sanitizeFileName pick.1) ext
  let filePath := outputDir ++ "/" ++ safeName
  ({ filePath := filePath
     fileName := basename filePath
     byteLength := some (bytes : Int)
     contentType := contentType
     metadataId := metadataId },
   pick.2, diskSet d filePath bytes)

/-- The record argument of saveDownloadRecord. -/
structure DownloadRecord where
  downloadUrl : Option Url := none
  fileName : Option String := none
  metadataId : Option String := none
  buffer : Option Nat := none
  bufferContentType : String := ""
deriving Repr

/-- saveDownloadRecord from the source (the record.url fallback of the
metadata id is not used by the modelled call sites).  Errors are the
exceptions of the inner fetch. -/
def saveDownloadRecord (outputDir : String) (run : Option ImageRun) (d : Disk)
    (rec : DownloadRecord) (env : FetchEnv) (preferCurlDownloads : Bool)
    (nowTag : Nat) : Except String (SaveResult × Option ImageRun × Disk) :=
  let metadataId :=
    match rec.metadataId with
    | some s => if s != "" then some s else rec.downloadUrl.bind extractFileId
    | none => rec.downloadUrl.bind extractFileId
  match rec.buffer with
  | some b =>
    let saved := saveBufferToDisk outputDir run d b
      (some ((rec.fileName.getD ("download-" ++ toString nowTag))))
      rec.bufferContentType metadataId nowTag
    Except.ok
      (buildSaveResult 1 [saved.1] (match metadataId with | some m => [m] | none => []),
       saved.2.1, saved.2.2)
  | none =>
    match rec.downloadUrl with
    | some _ =>
      match fetchDownloadWithRetry (modeIsFile run) preferCurlDownloads env with
      | (Except.error msg, _) => Except.error msg
      | (Except.ok okRes, _) =>
        let name :=
          match rec.fileName with
          | some s =>
            if s != "" then s
            else if okRes.fileName != "" then okRes.fileName
            else runFilePref run ++ "-" ++ toString nowTag
          | none =>
            if okRes.fileName != "" then okRes.fileName
            else runFilePref run ++ "-" ++ toString nowTag
        let saved := saveBufferToDisk outputDir run d okRes.bytes (some name)
          okRes.contentType metadataId nowTag
        Except.ok
          (buildSaveResult 1 [saved.1]
            (match metadataId with | some m => [m] | none => []),
           saved.2.1, saved.2.2)
    | none => Except.ok (buildSaveResult, run, d)

/-- The observed first response of saveDownloadFromUrl: its content type
and, depending on it, the decoded JSON body or the binary body with its
content-disposition name. -/
structure DirectResponse where
  contentType : String := ""
  jsonInfo : Option FileInfo := none
  dispositionName : String := ""
  bytes : Nat := 0
deriving Repr

/-- saveDownloadFromUrl from the source: the standalone save path used by
the Playwright download handler and the DOM fallback prober.  Note that
it performs no uploaded-reference-name check. -/
def saveDownloadFromUrl (outputDir : String) (run : Option ImageRun) (d : Disk)
    (u : Url) (resp : DirectResponse) (env : FetchEnv)
    (preferCurlDownloads : Bool) (nowTag : Nat) :
    Except String (SaveResult × Option ImageRun × Disk) :=
  let initialMetadataId := extractFileId u
  if isJsonContentType resp.contentType then
    match resp.jsonInfo with
    | none => Except.error "json_parse_failed"
    | some fi =>
      let detailTruthy :=
        match fi.detail_message with
        | some s => s != ""
        | none => false
      if detailTruthy then Except.ok (buildSaveResult, run, d)
      else
        match fi.download_url with
        | some du =>
          if du.raw == "" then Except.ok (buildSaveResult, run, d)
          else
            let metadataId :=
              match extractFileId du with
              | some m => some m
              | none => initialMetadataId
            let metadataFileNameRaw :=
              match fi.file_name with
              | some s => basename s
              | none => ""
            let fileName :=
              if metadataFileNameRaw != ""
                  && !(modeIsImage run
                    && isLikelyImageStreamPartName metadataFileNameRaw) then
                some metadataFileNameRaw
              else none
            saveDownloadRecord outputDir run d
              { downloadUrl := some du, fileName := fileName, metadataId := metadataId }
              env preferCurlDownloads nowTag
        | none => Except.ok (buildSaveResult, run, d)
  else
    let metadataId := extractFileId u
    let nameCandidate :=
      if resp.dispositionName != "" then resp.dispositionName
      else
        match metadataId with
        | some m => runFilePref run ++ "-" ++ m
        | none => runFilePref run ++ "-" ++ toString nowTag
    let saved := saveBufferToDisk outputDir run d resp.bytes (some nameCandidate)
      resp.contentType metadataId nowTag
    Except.ok
      (buildSaveResult 1 [saved.1] (match metadataId with | some m => [m] | none => []),
       saved.2.1, saved.2.2)

/-- The options of collectChatGptDownloads, together with the two config
values it consults and the per-session image run. -/
structure Cfg where
  timeoutMs : Nat := 60000
  idleMs : Nat := 3000
  maxFiles : Nat := 4
  requireFinalImageFrame : Bool := false
  waitForConvoStreamCompleted : Bool := false
  ignoreFileNames : List String := []
  outputDir : String := "/out"
  preferCurlDownloads : Bool := true
  imageRun : Option ImageRun := none
deriving Repr

/-- The normalized ignored upload file name set of the session. -/
def ignoredFileNameSet (cfg : Cfg) : List String :=
  dedupFirst []
    ((cfg.ignoreFileNames.map normalizeMatchFileName).filter (fun s => s != ""))

/-- The mutable closure state of one collectChatGptDownloads invocation.
Timers are their pending durations (none = not armed); timeoutArmed
mirrors the hard timeout timer, cleared only by cleanup. -/
structure SState where
  savedCount : Nat := 0
  finished : Bool := false
  seen : List String := []
  metadataIds : List String := []
  savedFiles : List SavedFileEntry := []
  streamEvents : List StreamEvent := []
  sawImageStreamPartFrame : Bool := false
  sawImageFinalFrame : Bool := false
  convoStreamCompleted : Bool := false
  idleTimer : Option Nat := none
  timeoutArmed : Bool := false
  imageRun : Option ImageRun := none
  disk : Disk := []
deriving Repr

/-- Session state at subscription time. -/
def initState (cfg : Cfg) : SState :=
  { convoStreamCompleted := !cfg.waitForConvoStreamCompleted
    timeoutArmed := true
    imageRun := cfg.imageRun }

/-- emitStreamEvent: append to the session log (the fire-and-forget
caller callback has no effect on the session). -/
def emit (st : SState) (e : StreamEvent) : SState :=
  { st with streamEvents := st.streamEvents ++ [e] }

/-- shouldIgnoreCapturedFile from the source. -/
def shouldIgnoreCapturedFile (cfg : Cfg) (fileName : String)
    (sourceFileName : String) : Bool :=
  let set := ignoredFileNameSet cfg
  if set.isEmpty then false
  else
    let nf := normalizeMatchFileName fileName
    let ns := normalizeMatchFileName sourceFileName
    (nf != "" && set.contains nf) || (ns != "" && set.contains ns)

/-- finish from the source: set finished once and run cleanup, which
clears both timers and detaches the response listener. -/
def finish (st : SState) : SState :=
  if st.finished then st
  else { st with finished := true, idleTimer := none, timeoutArmed := false }

/-- scheduleIdleCheck from the source: clear the idle timer, then arm it
only when a save occurred and neither media-mode guard holds. -/
def scheduleIdleCheck (cfg : Cfg) (st : SState) : SState :=
  let st := { st with idleTimer := none }
  if st.savedCount == 0 then st
  else if cfg.requireFinalImageFrame && st.sawImageStreamPartFrame
      && !st.sawImageFinalFrame then st
  else if cfg.requireFinalImageFrame && st.sawImageFinalFrame
      && !st.convoStreamCompleted then st
  else { st with idleTimer := some cfg.idleMs }

/-- Payload of a parsed convo-stream-completed beacon. -/
structure BeaconDetails where
  conversationId : Option String := none
  turnTraceId : Option String := none
  result : Option String := none
deriving Repr

/-- markConvoStreamCompleted from the source. -/
def markConvoStreamCompleted (cfg : Cfg) (st : SState)
    (details : Option BeaconDetails) : SState :=
  if st.convoStreamCompleted then st
  else
    let st := { st with convoStreamCompleted := true }
    let st := emit st
      { type := "convo_stream_completed"
        source := "ces_stream_event"
        conversationId := details.bind (fun d => d.conversationId)
        turnTraceId := details.bind (fun d => d.turnTraceId)
        resultField := details.bind (fun d => d.result)
        message := "Conversation stream completed" }
    if st.savedCount == 0 then st
    else if cfg.requireFinalImageFrame && st.sawImageStreamPartFrame
        && !st.sawImageFinalFrame then st
    else { st with idleTimer := some (min (max 600 cfg.idleMs) 1500) }

/-- Event metadata threaded through handleFileBuffer. -/
structure EventMeta where
  source : String := ""
  responseUrl : Option String := none
  downloadUrl : Option String := none
  sourceFileName : Option String := none
  isStreamPart : Bool := false
  streamPartIndex : Option Int := none
  isFinalStreamFrame : Bool := false
deriving Repr

/-- The JS pattern x || null for an optional string. -/
def truthyOpt (o : Option String) : Option String :=
  match o with
  | some s => if s != "" then some s else none
  | none => none

/-- Set.add on the insertion-ordered metadata id set. -/
def addMetadataId (st : SState) (mid : String) : SState :=
  if st.metadataIds.contains mid then st
  else { st with metadataIds := st.metadataIds ++ [mid] }

/-- The completion logic at the end of a successful handleFileBuffer:
max-files cap, the short post-final-frame window, or the idle check. -/
def afterSaveUpdate (cfg : Cfg) (st : SState) : SState :=
  if st.savedCount ≥ cfg.maxFiles then finish st
  else if cfg.requireFinalImageFrame && modeIsImage st.imageRun
      && st.sawImageFinalFrame && st.convoStreamCompleted then
    { st with idleTimer := some (min (max 500 cfg.idleMs) 1500) }
  else scheduleIdleCheck cfg st

/-- The file_saved stream event for one saved entry. -/
def fileSavedEvent (savedEntry : SavedFileEntry) (metadataId : Option String)
    (em : EventMeta) (contentType : String) : StreamEvent :=
  { type := "file_saved"
    source := if em.source != "" then em.source else "stream_response"
    responseUrl := em.responseUrl
    downloadUrl := em.downloadUrl
    metadataId := truthyOpt metadataId
    contentType := if contentType != "" then some contentType else none
    fileName := if savedEntry.fileName != "" then some savedEntry.fileName else none
    sourceFileName := savedEntry.sourceFileName
    outputPath := if savedEntry.filePath != "" then some savedEntry.filePath else none
    byteLength := savedEntry.byteLength
    isStreamPart := savedEntry.isStreamPart
    streamPartIndex := savedEntry.streamPartIndex
    isFinalStreamFrame := savedEntry.isFinalStreamFrame
    message := "Saved " ++ (if savedEntry.fileName != "" then savedEntry.fileName else "download") }

/-- The successful tail of handleFileBuffer after the disk write: emit
file_saved, push the entry, update the media frame flags, record the
metadata id, bump savedCount, and run the completion logic. -/
def recordSavedEntry (cfg : Cfg) (st : SState) (savedEntry : SavedFileEntry)
    (metadataId : Option String) (em : EventMeta) (contentType : String) :
    SState :=
  let st := emit st (fileSavedEvent savedEntry metadataId em contentType)
  let st := { st with savedFiles := st.savedFiles ++ [savedEntry] }
  let st :=
    if cfg.requireFinalImageFrame && modeIsImage st.imageRun then
      let st :=
        if savedEntry.isStreamPart then { st with sawImageStreamPartFrame := true }
        else st
      if savedEntry.isFinalStreamFrame then { st with sawImageFinalFrame := true }
      else st
    else st
  let st :=
    match metadataId with
    | some mid => if mid != "" then addMetadataId st mid else st
    | none => st
  let st := { st with savedCount := st.savedCount + 1 }
  afterSaveUpdate cfg st

/-- handleFileBuffer from the source: reference-name suppression, disk
write, event emission, media flag updates, and completion logic. -/
def handleFileBuffer (cfg : Cfg) (st : SState) (bytes : Nat)
    (contentType : String) (nameHint : String) (metadataId : Option String)
    (em : EventMeta) (nowTag : Nat) : SState :=
  if shouldIgnoreCapturedFile cfg nameHint (em.sourceFileName.getD "") then
    emit st
      { type := "file_ignored"
        source := if em.source != "" then em.source else "stream_response"
        responseUrl := em.responseUrl
        downloadUrl := em.downloadUrl
        metadataId := truthyOpt metadataId
        fileName := if jsTrim nameHint != "" then some (basename (jsTrim nameHint)) else none
        sourceFileName :=
          match em.sourceFileName with
          | some s => if jsTrim s != "" then some (basename (jsTrim s)) else none
          | none => none
        reason := some "matches_upload_reference_name"
        message := "Ignored captured file because it matches an uploaded reference filename" }
  else
    let saveName := if nameHint != "" then nameHint else "download-" ++ toString nowTag
    let savedOut := saveBufferToDisk cfg.outputDir st.imageRun st.disk bytes
      (some saveName) contentType metadataId nowTag
    let savedEntry : SavedFileEntry :=
      { savedOut.1 with
        sourceFileName := truthyOpt em.sourceFileName
        isStreamPart := em.isStreamPart
        streamPartIndex := em.streamPartIndex
        isFinalStreamFrame := em.isFinalStreamFrame }
    recordSavedEntry cfg { st with imageRun := savedOut.2.1, disk := savedOut.2.2 }
      savedEntry metadataId em contentType

/-- One observed response with its decoded bodies and network oracles. -/
structure RespInput where
  url : Url := {}
  contentType : String := ""
  jsonInfo : Option FileInfo := none
  estuaryOk : Bool := true
  estuaryItem : Option String := none
  dispositionName : String := ""
  fetchEnv : FetchEnv := {}
  nowTag : Nat := 0
deriving Repr

/-- The x || null content type field of session events. -/
def ctOptOf (r : RespInput) : Option String :=
  if r.contentType != "" then some r.contentType else none

/-- save_failed event of the metadata branch. -/
def metaSaveFailedEvent (r : RespInput) (msg : String) : StreamEvent :=
  { type := "save_failed", source := "files_download_metadata"
    responseUrl := some r.url.raw, metadataId := extractFileId r.url
    contentType := ctOptOf r, message := msg }

/-- file_ignored event for an upload echo metadata body. -/
def echoIgnoredEvent (r : RespInput) : StreamEvent :=
  { type := "file_ignored", source := "files_download_metadata"
    responseUrl := some r.url.raw, metadataId := extractFileId r.url
    reason := some "upload_echo_metadata_null_fields"
    message := "Ignored metadata response because file_name and file_size_bytes are null (likely upload echo)" }

/-- metadata_missing_download_url event. -/
def missingDlUrlEvent (r : RespInput) : StreamEvent :=
  { type := "metadata_missing_download_url", source := "files_download_metadata"
    responseUrl := some r.url.raw, metadataId := extractFileId r.url
    contentType := ctOptOf r
    message := "Metadata response did not include download_url" }

/-- download_url_resolved event of the metadata branch. -/
def resolvedMetaEvent (r : RespInput) (du : Url) (metadataId : Option String)
    (frameInfo : FrameParse) : StreamEvent :=
  { type := "download_url_resolved", source := "files_download_metadata"
    responseUrl := some r.url.raw, downloadUrl := some du.raw
    streamFrameUrl := some du.raw
    metadataId := metadataId
    sourceFileName := if frameInfo.fileName != "" then some frameInfo.fileName else none
    isStreamPart := frameInfo.isPart
    streamPartIndex := frameInfo.partIndex.map (fun n => (n : Int))
    isFinalStreamFrame := frameInfo.isFinal
    contentType := ctOptOf r
    message :=
      if frameInfo.isFinal then "Resolved final stream frame URL from metadata response"
      else "Resolved stream frame URL from metadata response" }

/-- The event metadata handed to handleFileBuffer by the metadata
branch. -/
def metaEventMeta (r : RespInput) (du : Url) (frameInfo : FrameParse) :
    EventMeta :=
  { source := "files_download_metadata"
    responseUrl := some r.url.raw
    downloadUrl := some du.raw
    sourceFileName := if frameInfo.fileName != "" then some frameInfo.fileName else none
    isStreamPart := frameInfo.isPart
    streamPartIndex := frameInfo.partIndex.map (fun n => (n : Int))
    isFinalStreamFrame := frameInfo.isFinal }

/-- The files/download JSON metadata branch of processResponse. -/
def processDownloadJson (cfg : Cfg) (st : SState) (r : RespInput) : SState :=
  match r.jsonInfo with
  | none => emit st (metaSaveFailedEvent r "json_parse_failed")
  | some fi =>
    if !(ignoredFileNameSet cfg).isEmpty && isLikelyUploadEchoMetadata fi then
      emit st (echoIgnoredEvent r)
    else
      let du? :=
        match fi.download_url with
        | some du => if du.raw != "" then some du else none
        | none => none
      match du? with
      | some du =>
        let metadataId :=
          match extractFileId du with
          | some m => some m
          | none => extractFileId r.url
        let metadataFileNameRaw :=
          match fi.file_name with
          | some s => basename s
          | none => ""
        let frameInfo := parseImageStreamFrameInfo (some metadataFileNameRaw)
        let st := emit st (resolvedMetaEvent r du metadataId frameInfo)
        match fetchDownloadWithRetry (modeIsFile st.imageRun) cfg.preferCurlDownloads
            r.fetchEnv with
        | (Except.error msg, _) => emit st (metaSaveFailedEvent r msg)
        | (Except.ok okRes, _) =>
          let shouldUseMetadataFileName :=
            metadataFileNameRaw != ""
              && !(modeIsImage st.imageRun
                && isLikelyImageStreamPartName metadataFileNameRaw)
          let nameCandidate :=
            if shouldUseMetadataFileName then metadataFileNameRaw
            else if okRes.fileName != "" then basename okRes.fileName
            else runFilePref st.imageRun ++ "-" ++ toString r.nowTag
          handleFileBuffer cfg st okRes.bytes okRes.contentType nameCandidate metadataId
            (metaEventMeta r du frameInfo) r.nowTag
      | none => emit st (missingDlUrlEvent r)

/-- The name hint of the direct binary branch. -/
def binaryNameHint (st : SState) (r : RespInput) : String :=
  if r.dispositionName != "" then basename r.dispositionName
  else
    match extractFileId r.url with
    | some rid => runFilePref st.imageRun ++ "-" ++ rid
    | none => runFilePref st.imageRun ++ "-" ++ toString r.nowTag

/-- file_ignored event of the direct binary branch. -/
def binaryIgnoredEvent (r : RespInput) (nameHint : String) : StreamEvent :=
  { type := "file_ignored", source := "download_response"
    responseUrl := some r.url.raw, metadataId := extractFileId r.url
    fileName := if nameHint != "" then some nameHint else none
    reason := some "matches_upload_reference_name"
    message := "Ignored captured file because it matches an uploaded reference filename" }

/-- save_failed event of the direct binary branch. -/
def binarySaveFailedEvent (r : RespInput) (msg : String) : StreamEvent :=
  { type := "save_failed", source := "download_response"
    responseUrl := some r.url.raw, metadataId := extractFileId r.url
    contentType := ctOptOf r, message := msg }

/-- file_saved event of the direct binary branch for one saved entry. -/
def binaryFileSavedEvent (r : RespInput) (f : SavedFileEntry) : StreamEvent :=
  { type := "file_saved", source := "download_response"
    responseUrl := some r.url.raw, metadataId := extractFileId r.url
    contentType :=
      if f.contentType != "" then some f.contentType else ctOptOf r
    fileName := if f.fileName != "" then some f.fileName else none
    outputPath := if f.filePath != "" then some f.filePath else none
    byteLength := f.byteLength
    message := "Saved " ++ (if f.fileName != "" then f.fileName else "download") }

/-- The non-JSON direct download branch of processResponse. -/
def processBinary (cfg : Cfg) (st : SState) (r : RespInput) : SState :=
  let nameHint := binaryNameHint st r
  if shouldIgnoreCapturedFile cfg nameHint "" then
    emit st (binaryIgnoredEvent r nameHint)
  else
    match saveDownloadRecord cfg.outputDir st.imageRun st.disk
        { downloadUrl := some r.url
          fileName := if nameHint != "" then some nameHint else none
          metadataId := extractFileId r.url }
        r.fetchEnv cfg.preferCurlDownloads r.nowTag with
    | Except.error msg =>
      let st := emit st (binarySaveFailedEvent r msg)
      if st.savedCount ≥ cfg.maxFiles then finish st else st
    | Except.ok (next, run2, d2) =>
      let st := { st with imageRun := run2, disk := d2 }
      let st := { st with savedCount := st.savedCount + next.savedCount }
      let st := next.savedFiles.foldl (fun s f =>
        emit { s with savedFiles := s.savedFiles ++ [f] }
          (binaryFileSavedEvent r f)) st
      let st := next.metadataIds.foldl (fun s mid =>
        if mid != "" then addMetadataId s mid else s) st
      if st.savedCount ≥ cfg.maxFiles then finish st
      else if next.savedCount > 0 then scheduleIdleCheck cfg st
      else st

/-- save_failed event of the estuary branch. -/
def estuarySaveFailedEvent (r : RespInput) (msg : String) : StreamEvent :=
  { type := "save_failed", source := "estuary_content"
    responseUrl := some r.url.raw, contentType := ctOptOf r
    message := msg }

/-- metadata_missing_item event of the estuary branch. -/
def estuaryMissingItemEvent (r : RespInput) : StreamEvent :=
  { type := "metadata_missing_item", source := "estuary_content"
    responseUrl := some r.url.raw, contentType := ctOptOf r
    message := "Estuary metadata did not include item id" }

/-- download_url_resolved event of the estuary branch. -/
def estuaryResolvedEvent (r : RespInput) (item : String) : StreamEvent :=
  { type := "download_url_resolved", source := "estuary_content"
    responseUrl := some r.url.raw
    downloadUrl := some ("https://chatgpt.com/backend-api/estuary/content/" ++ item)
    metadataId := some item, contentType := ctOptOf r
    message := "Resolved estuary download URL" }

/-- The event metadata handed to handleFileBuffer by the estuary
branch. -/
def estuaryEventMeta (r : RespInput) (item : String) : EventMeta :=
  { source := "estuary_content"
    responseUrl := some r.url.raw
    downloadUrl := some ("https://chatgpt.com/backend-api/estuary/content/" ++ item) }

/-- The estuary JSON branch of processResponse. -/
def processEstuary (cfg : Cfg) (st : SState) (r : RespInput) : SState :=
  if !r.estuaryOk then
    emit st (estuarySaveFailedEvent r "json_parse_failed")
  else
    match truthyOpt r.estuaryItem with
    | none => emit st (estuaryMissingItemEvent r)
    | some item =>
      let st := emit st (estuaryResolvedEvent r item)
      match fetchDownloadWithRetry (modeIsFile st.imageRun) cfg.preferCurlDownloads
          r.fetchEnv with
      | (Except.error msg, _) => emit st (estuarySaveFailedEvent r msg)
      | (Except.ok okRes, _) =>
        let nameHint :=
          if okRes.fileName != "" then basename okRes.fileName
          else runFilePref st.imageRun ++ "-" ++ item
        handleFileBuffer cfg st okRes.bytes okRes.contentType nameHint (some item)
          (estuaryEventMeta r item) r.nowTag

/-- The dedupe key of a response: its extracted file id, else its raw
URL. -/
def dedupeKey (r : RespInput) : String :=
  (extractFileId r.url).getD r.url.raw

/-- Whether a response is in scope for the session: target host and one
of the two download path shapes. -/
def inScope (r : RespInput) : Bool :=
  r.url.hostname == "chatgpt.com"
    && (strStartsWith r.url.pathname "/backend-api/estuary/content"
      || strStartsWith r.url.pathname "/backend-api/files/download/")

/-- The session state right after the dedup bookkeeping of
processResponse: media runs skip dedup, other runs record the key. -/
def afterDedup (st : SState) (r : RespInput) : SState :=
  if modeIsImage st.imageRun then st
  else { st with seen := st.seen ++ [dedupeKey r] }

/-- processResponse from the source: scope check, non-media dedup, then
the three classification branches. -/
def processResponse (cfg : Cfg) (st : SState) (r : RespInput) : SState :=
  if r.url.hostname != "chatgpt.com" then st
  else
    let isEstuary := strStartsWith r.url.pathname "/backend-api/estuary/content"
    let isDownload := strStartsWith r.url.pathname "/backend-api/files/download/"
    if !isEstuary && !isDownload then st
    else
      let isImageRun := modeIsImage st.imageRun
      if !isImageRun && st.seen.contains (dedupeKey r) then st
      else
        let st :=
          if !isImageRun then { st with seen := st.seen ++ [dedupeKey r] } else st
        if isDownload && isJsonContentType r.contentType then
          processDownloadJson cfg st r
        else if !isJsonContentType r.contentType then processBinary cfg st r
        else if isEstuary && isJsonContentType r.contentType then
          processEstuary cfg st r
        else st

/-- One serialized session event: a queued response, a parsed completion
beacon, or a timer firing. -/
inductive SEvent where
  | resp (r : RespInput)
  | beacon (details : Option BeaconDetails)
  | idleFire
  | timeoutFire

/-- The session step relation.  A response arriving after finish is
dropped by the detached listener; the beacon waiter exists only when
configured; a timer fires only while armed. -/
def step (cfg : Cfg) (st : SState) : SEvent → SState
  | SEvent.resp r => if st.finished then st else processResponse cfg st r
  | SEvent.beacon d =>
    if cfg.waitForConvoStreamCompleted then markConvoStreamCompleted cfg st d else st
  | SEvent.idleFire => if st.idleTimer.isSome then finish st else st
  | SEvent.timeoutFire => if st.timeoutArmed then finish st else st

/-- Session state after a serialized event trace. -/
def runState (cfg : Cfg) (evs : List SEvent) : SState :=
  evs.foldl (step cfg) (initState cfg)

/-- The outcome of one collectChatGptDownloads run: the aggregate
returned to the caller, the final session state, the disk after the
latest-file copy, and that copy as an effect (source, destination). -/
structure RunOutcome where
  result : SaveResult
  final : SState
  diskAfter : Disk
  latestCopy : Option (String × String)

/-- The tail of collectChatGptDownloads after the drain: copy the most
recent saved file to the fixed latest path (when different), emit
collector_complete, and build the aggregate. -/
def runCollect (cfg : Cfg) (evs : List SEvent) : RunOutcome :=
  let s := runState cfg evs
  let copyEff : Option (String × String) :=
    match s.savedFiles.getLast? with
    | some ls =>
      let latestExt := extensionFromContentType ls.contentType
      let latestName := applyExtension "latest" latestExt
      let latestPath := cfg.outputDir ++ "/" ++ latestName
      if ls.filePath != latestPath then some (ls.filePath, latestPath) else none
    | none => none
  let diskAfter :=
    match copyEff with
    | some sd => diskSet s.disk sd.2 ((diskSize s.disk sd.1).getD 0)
    | none => s.disk
  let s2 := emit s
    { type := "collector_complete", source := "stream_collector"
      savedCountField := some s.savedCount
      message :=
        if s.savedCount > 0 then "Collector finished with saved file(s)"
        else "Collector finished with no captured files" }
  { result := buildSaveResult s.savedCount s.savedFiles s.metadataIds s2.streamEvents
    final := s2
    diskAfter := diskAfter
    latestCopy := copyEff }

/-- Written from the spec wording for the frame classifier: the name
contains a case-insensitive .part<N> segment, immediately before the
final extension or at the end, whose digits read N. -/
def specPartSegment (l : List Char) (n : Nat) : Prop :=
  ∃ pre p1 p2 p3 p4 digits tail,
    l = pre ++ '.' :: p1 :: p2 :: p3 :: p4 :: (digits ++ tail)
    ∧ lcEq p1 'p' = true ∧ lcEq p2 'a' = true
    ∧ lcEq p3 'r' = true ∧ lcEq p4 't' = true
    ∧ digits ≠ [] ∧ (∀ c ∈ digits, c.isDigit = true)
    ∧ (tail = [] ∨ finalExtSuffix tail = true)
    ∧ digitsToNat digits = n

/-- Concrete witness data: the metadata endpoint URL of file f77. -/
def witUrlDl : Url :=
  { hostname := "chatgpt.com", pathname := "/backend-api/files/download/f77",
    raw := "https://chatgpt.com/backend-api/files/download/f77" }

/-- Concrete witness data: the resolved download URL of file f77. -/
def witUrlCdn : Url :=
  { hostname := "cdn.example", pathname := "/blob",
    raw := "https://cdn.example/blob-f77" }

/-- Concrete witness data: a well-formed metadata body for f77. -/
def witFi : FileInfo :=
  { file_name := some "a.png", file_size_bytes := some 5,
    download_url := some witUrlCdn }

/-- Concrete witness data: a metadata response whose nested fetch always
throws. -/
def witResp : RespInput :=
  { url := witUrlDl, contentType := "application/json", jsonInfo := some witFi }

/-- Concrete witness data: a curl success carrying a JSON body. -/
def witCurl : CurlOutcome :=
  { ok := true, contentType := "application/json", bytes := 3, status := 200 }

/-- Concrete witness data: a fetch oracle whose first browser attempt
succeeds with a PNG body. -/
def okFetchEnv : FetchEnv :=
  { attemptOutcomes := [AttemptOutcome.gotResponse true 200 "image/png" "" 10] }

/-- Concrete witness data: an upload-echo metadata body (null name and
size) that still carries a download URL. -/
def witEchoFi : FileInfo :=
  { file_name := none, file_size_bytes := none, download_url := some witUrlCdn }

/-- Concrete witness data: an upload-echo metadata response whose nested
fetch succeeds. -/
def witEchoResp : RespInput :=
  { url := witUrlDl, contentType := "application/json",
    jsonInfo := some witEchoFi, fetchEnv := okFetchEnv }

/-- Concrete witness data: a session configured with one uploaded
reference file name. -/
def witCfgRef : Cfg := { ignoreFileNames := ["ref.png"] }

/-- Concrete witness data: a media-kind session that requires a final
image frame. -/
def witImageCfg : Cfg :=
  { requireFinalImageFrame := true, imageRun := some {} }

/-- Concrete witness data: a metadata body naming a part frame. -/
def witPartFi : FileInfo :=
  { file_name := some "x.part1.png", file_size_bytes := some 5,
    download_url := some witUrlCdn }

/-- Concrete witness data: a metadata response for a part frame whose
nested fetch succeeds. -/
def witPartResp : RespInput :=
  { url := witUrlDl, contentType := "application/json",
    jsonInfo := some witPartFi, fetchEnv := okFetchEnv }

/-- The media-mode idle guard as a state predicate: while a part frame
has been saved and no final frame has, the idle timer is not armed. -/
def noIdleAwaitingFinal (st : SState) : Prop :=
  st.sawImageStreamPartFrame = true → st.sawImageFinalFrame = false →
    st.idleTimer = none

/-- The hard-timeout liveness predicate: the timeout timer armed at
subscription stays armed until the session is finished. -/
def armedUnlessFinished (st : SState) : Prop :=
  st.finished = false → st.timeoutArmed = true

/-- The fixed latest path of the collector tail for a saved entry:
latest.<ext> inside the output directory, with the extension derived
from the entry's content type. -/
def latestPathFor (cfg : Cfg) (e : SavedFileEntry) : String :=
  cfg.outputDir ++ "/" ++ applyExtension "latest" (extensionFromContentType e.contentType)

/-- Concrete witness data: the entry saved by a session that captured
witEchoResp under the default configuration. -/
def witLatestEntry : SavedFileEntry :=
  { filePath := "/out/download-0.png", fileName := "download-0.png",
    byteLength := some 10, contentType := "image/png", metadataId := some "f77" }

/-- The first pass of retainLatestImageOnly over an aggregate's stream
events. -/
def phaseOf (sr : SaveResult) : Phase1State :=
  sr.streamEvents.foldl phase1Step {}

/-- The ordered candidate list retainLatestImageOnly builds from an
aggregate. -/
def orderedOf (sr : SaveResult) : List Candidate :=
  orderedCandidatesOf (phaseOf sr).infoMap sr.streamEvents
    (sr.savedFiles.filter (fun e => e.filePath != ""))

/-- The on-disk candidates of retainLatestImageOnly, most recent
first. -/
def existingOf (sr : SaveResult) (d : Disk) : List Candidate :=
  collectExisting d (orderedOf sr).reverse []

/-- Concrete witness data: the per-file metadata download URL of an
id. -/
def metaUrlFor (id : String) : Url :=
  { hostname := "chatgpt.com", pathname := "/backend-api/files/download/" ++ id,
    raw := "https://chatgpt.com/backend-api/files/download/" ++ id }

/-- Concrete witness data: the resolved CDN URL of an id. -/
def cdnUrlFor (id : String) : Url :=
  { hostname := "cdn.example", pathname := "/blob",
    raw := "https://cdn.example/blob-" ++ id }

/-- Concrete witness data: a media-frame metadata body carrying a
remote file name and the resolved CDN URL of its id. -/
def frameFiFor (id nm : String) : FileInfo :=
  { file_name := some nm, file_size_bytes := some 100,
    download_url := some (cdnUrlFor id) }

/-- Concrete witness data: a media-frame metadata response carrying a
remote file name, whose nested fetch succeeds with a PNG body. -/
def frameRespFor (id nm : String) (tag : Nat) : RespInput :=
  { url := metaUrlFor id, contentType := "application/json; charset=utf-8",
    jsonInfo := some (frameFiFor id nm),
    fetchEnv := okFetchEnv, nowTag := tag }

/-- Concrete witness data: a media session awaiting the completion
beacon with a generous file cap. -/
def witMediaCfg : Cfg :=
  { timeoutMs := 120000, idleMs := 3000, maxFiles := 1000000,
    requireFinalImageFrame := true, waitForConvoStreamCompleted := true,
    imageRun := some { runId := "r1", generationMode := "image", filePref := "image" } }

/-- Concrete witness data: the spec's media example — x.part1.png,
x.part2.png, x.png in that order, then the beacon and the idle check. -/
def specFramesTrace : List SEvent :=
  [ SEvent.resp (frameRespFor "id1" "x.part1.png" 1),
    SEvent.resp (frameRespFor "id2" "x.part2.png" 2),
    SEvent.resp (frameRespFor "id3" "x.png" 3),
    SEvent.beacon none,
    SEvent.idleFire ]

/-- Concrete witness data: a run whose final frame (id idF) arrives
before a later part frame (id idP), so the most recent recorded
metadata id is idP while the selected candidate carries idF. -/
def swapFramesTrace : List SEvent :=
  [ SEvent.resp (frameRespFor "idF" "x.png" 1),
    SEvent.resp (frameRespFor "idP" "x.part1.png" 2),
    SEvent.beacon none,
    SEvent.idleFire ]

/-- Concrete witness data: the candidate retainLatestImageOnly selects
on the spec's media example. -/
def witSelected : Candidate :=
  { filePath := "/out/x.png", fileName := "x.png", sourceFileName := "x.png",
    byteLength := some 10, contentType := "image/png", metadataId := some "id3",
    isFinalStreamFrame := true }

/-! Lemmas about keep-first deduplication, towards the merge monoid. -/

theorem dedupFirst_nil (s : List String) : dedupFirst s [] = [] := rfl

theorem dedupFirst_cong (l : List String) :
    ∀ s t : List String, (∀ x, x ∈ s ↔ x ∈ t) →
      dedupFirst s l = dedupFirst t l := by
  induction l with
  | nil => intro s t _; rfl
  | cons a l ih =>
    intro s t hst
    by_cases ha : a ∈ s
    · simp only [dedupFirst, if_pos ha, if_pos ((hst a).mp ha)]
      exact ih s t hst
    · have ha2 : a ∉ t := fun h => ha ((hst a).mpr h)
      simp only [dedupFirst, if_neg ha, if_neg ha2]
      refine congrArg (a :: ·) (ih (a :: s) (a :: t) ?_)
      intro x
      simp only [List.mem_cons]
      exact or_congr Iff.rfl (hst x)

theorem mem_dedupFirst (l : List String) :
    ∀ s a, a ∈ dedupFirst s l ↔ a ∈ l ∧ a ∉ s := by
  induction l with
  | nil => intro s a; simp [dedupFirst]
  | cons b l ih =>
    intro s a
    by_cases hb : b ∈ s
    · simp only [dedupFirst, if_pos hb, ih, List.mem_cons]
      constructor
      · rintro ⟨h1, h2⟩; exact ⟨Or.inr h1, h2⟩
      · rintro ⟨h1 | h1, h2⟩
        · exact absurd (h1 ▸ hb) h2
        · exact ⟨h1, h2⟩
    · simp only [dedupFirst, if_neg hb, List.mem_cons, ih, List.mem_cons]
      constructor
      · rintro (rfl | ⟨h1, h2⟩)
        · exact ⟨Or.inl rfl, hb⟩
        · exact ⟨Or.inr h1, fun hs => h2 (Or.inr hs)⟩
      · rintro ⟨rfl | h1, h2⟩
        · exact Or.inl rfl
        · by_cases hab : a = b
          · exact Or.inl hab
          · exact Or.inr ⟨h1, fun hs => h2 (hs.resolve_left hab)⟩

theorem dedupFirst_append (xs : List String) :
    ∀ (s ys : List String),
      dedupFirst s (xs ++ ys) = dedupFirst s xs ++ dedupFirst (s ++ xs) ys := by
  induction xs with
  | nil =>
    intro s ys; simp [dedupFirst]
  | cons a xs ih =>
    intro s ys
    by_cases ha : a ∈ s
    · rw [List.cons_append]
      simp only [dedupFirst, if_pos ha]
      rw [ih s ys]
      refine congrArg _ (dedupFirst_cong ys _ _ ?_)
      intro x
      simp only [List.mem_append, List.mem_cons]
      constructor
      · rintro (h | h)
        · exact Or.inl h
        · exact Or.inr (Or.inr h)
      · rintro (h | rfl | h)
        · exact Or.inl h
        · exact Or.inl ha
        · exact Or.inr h
    · rw [List.cons_append]
      simp only [dedupFirst, if_neg ha]
      rw [ih (a :: s) ys, List.cons_append]
      refine congrArg (a :: ·) (congrArg _ (dedupFirst_cong ys _ _ ?_))
      intro x
      simp only [List.mem_append, List.mem_cons]
      tauto

theorem dedupFirst_dedupFirst (l : List String) :
    ∀ s t : List String, (∀ x, x ∈ t → x ∈ s) →
      dedupFirst s (dedupFirst t l) = dedupFirst s l := by
  induction l with
  | nil => intro s t _; rfl
  | cons a l ih =>
    intro s t hts
    by_cases hat : a ∈ t
    · have has : a ∈ s := hts a hat
      simp only [dedupFirst, if_pos hat, if_pos has]
      exact ih s t hts
    · by_cases has : a ∈ s
      · simp only [dedupFirst, if_neg hat, if_pos has]
        refine ih s (a :: t) ?_
        intro x hx
        rcases List.mem_cons.mp hx with rfl | hx
        · exact has
        · exact hts x hx
      · simp only [dedupFirst, if_neg hat, if_neg has]
        refine congrArg (a :: ·) (ih (a :: s) (a :: t) ?_)
        intro x hx
        rcases List.mem_cons.mp hx with rfl | hx
        · exact List.mem_cons_self _ _
        · exact List.mem_cons_of_mem a (hts x hx)

/-- The metadata id normalization of buildSaveResult. -/
def normIds (l : List String) : List String :=
  dedupFirst [] (l.filter (fun s => s != ""))

theorem filter_dedupFirst (l : List String) (s : List String) :
    (dedupFirst s (l.filter (fun x => x != ""))).filter (fun x => x != "")
      = dedupFirst s (l.filter (fun x => x != "")) := by
  refine List.filter_eq_self.mpr ?_
  intro a ha
  have h1 := ((mem_dedupFirst _ s a).mp ha).1
  exact (List.mem_filter.mp h1).2

theorem normIds_append_normIds (x y : List String) :
    normIds (x ++ normIds y) = normIds (x ++ y) := by
  unfold normIds
  rw [List.filter_append, List.filter_append, filter_dedupFirst,
    dedupFirst_append, dedupFirst_append]
  refine congrArg _ ?_
  refine Eq.trans (dedupFirst_dedupFirst _ _ _ ?_) rfl
  intro x hx
  rw [List.nil_append]
  exact absurd hx (List.not_mem_nil x)

theorem normIds_normIds_append (x y : List String) :
    normIds (normIds x ++ y) = normIds (x ++ y) := by
  unfold normIds
  rw [List.filter_append, List.filter_append, filter_dedupFirst,
    dedupFirst_append, dedupFirst_append]
  rw [dedupFirst_dedupFirst _ _ _ (fun x h => absurd h (List.not_mem_nil x))]
  refine congrArg _ (dedupFirst_cong _ _ _ ?_)
  intro a
  simp only [List.nil_append, mem_dedupFirst, List.not_mem_nil,
    not_false_iff, and_true]

/-- C9: mergeSaveResults is associative on the nose — savedCount adds,
savedFiles and streamEvents concatenate, metadataIds normalize to the
same keep-first union — and buildSaveResult () is an identity on every
normalized aggregate (every aggregate the engine builds), so SaveResults
form a monoid under merging.  Stated as full structure equality, which
subsumes the claimed per-field equalities. -/
theorem mergeSaveResults_assoc_and_identity (a b c : SaveResult) :
    mergeSaveResults (mergeSaveResults a b) c
        = mergeSaveResults a (mergeSaveResults b c)
      ∧ (a.normalized →
        mergeSaveResults (buildSaveResult) a = a
          ∧ mergeSaveResults a (buildSaveResult) = a) := by
  constructor
  · unfold mergeSaveResults buildSaveResult
    simp only [SaveResult.mk.injEq]
    refine ⟨by omega, List.append_assoc _ _ _, ?_, List.append_assoc _ _ _⟩
    have h1 := normIds_normIds_append (a.metadataIds ++ b.metadataIds) c.metadataIds
    have h2 := normIds_append_normIds a.metadataIds (b.metadataIds ++ c.metadataIds)
    unfold normIds at h1 h2
    rw [h1, h2, List.append_assoc]
  · intro hn
    unfold SaveResult.normalized at hn
    cases a with
    | mk sc sf mi se =>
      simp only at hn
      unfold mergeSaveResults buildSaveResult
      simp only [List.filter_nil, dedupFirst_nil, List.nil_append, List.append_nil,
        Nat.zero_add, Nat.add_zero]
      rw [← hn]
      exact ⟨rfl, rfl⟩

/-- Witness for C9 at concrete aggregates, discharging the
normalization hypothesis of the identity part. -/
theorem mergeSaveResults_assoc_and_identity_witness :
    (mergeSaveResults
        (mergeSaveResults (buildSaveResult 1 [] ["a", "b"])
          (buildSaveResult 2 [] ["b", "c"]))
        (buildSaveResult 3 [] ["c", "d"])
      = mergeSaveResults (buildSaveResult 1 [] ["a", "b"])
        (mergeSaveResults (buildSaveResult 2 [] ["b", "c"])
          (buildSaveResult 3 [] ["c", "d"])))
    ∧ mergeSaveResults (buildSaveResult) (buildSaveResult 1 [] ["a", "b"])
      = buildSaveResult 1 [] ["a", "b"] := by
  have h := mergeSaveResults_assoc_and_identity
    (buildSaveResult 1 [] ["a", "b"]) (buildSaveResult 2 [] ["b", "c"])
    (buildSaveResult 3 [] ["c", "d"])
  exact ⟨h.1, (h.2 (by decide)).1⟩

/-! Frame classifier: the part segment matcher agrees with the spec
wording. -/

theorem takeWhile_append_drop (p : Char → Bool) (l : List Char) :
    l.takeWhile p ++ l.drop (l.takeWhile p).length = l := by
  induction l with
  | nil => rfl
  | cons c cs ih =>
    by_cases hc : p c
    · simp only [List.takeWhile_cons, hc, List.length_cons, List.drop_succ_cons,
        List.cons_append, if_true]
      exact congrArg (c :: ·) ih
    · simp [List.takeWhile_cons, hc]

theorem mem_takeWhile_pred (p : Char → Bool) (l : List Char) (c : Char)
    (h : c ∈ l.takeWhile p) : p c = true := by
  induction l with
  | nil => simp [List.takeWhile] at h
  | cons a as ih =>
    by_cases ha : p a
    · rw [List.takeWhile_cons, if_pos ha] at h
      rcases List.mem_cons.mp h with rfl | h2
      · exact ha
      · exact ih h2
    · rw [List.takeWhile_cons, if_neg ha] at h
      exact absurd h (List.not_mem_nil c)

theorem takeWhile_all_append (p : Char → Bool) (d t : List Char)
    (hd : ∀ c ∈ d, p c = true) (ht : t.takeWhile p = []) :
    (d ++ t).takeWhile p = d := by
  induction d with
  | nil => exact ht
  | cons c cs ih =>
    have hc : p c = true := hd c (List.mem_cons_self c cs)
    rw [List.cons_append, List.takeWhile_cons, if_pos hc]
    exact congrArg (c :: ·) (ih (fun x hx => hd x (List.mem_cons_of_mem c hx)))

theorem partDigitsOf_eq_some (rest d : List Char) :
    partDigitsOf rest = some d
      ↔ d = rest.takeWhile Char.isDigit ∧ d ≠ []
        ∧ (rest.drop d.length = [] ∨ finalExtSuffix (rest.drop d.length) = true) := by
  unfold partDigitsOf
  constructor
  · intro h
    split at h
    · rename_i hcond
      cases h
      simp only [Bool.and_eq_true, Bool.not_eq_true', List.isEmpty_eq_false,
        Bool.or_eq_true, List.isEmpty_iff] at hcond
      refine ⟨rfl, ?_, ?_⟩
      · exact hcond.1
      · rcases hcond.2 with h2 | h2
        · exact Or.inl h2
        · exact Or.inr h2
    · exact absurd h (by simp)
  · rintro ⟨rfl, hne, htl⟩
    rw [if_pos]
    simp only [Bool.and_eq_true, Bool.not_eq_true', List.isEmpty_eq_false,
      Bool.or_eq_true, List.isEmpty_iff]
    exact ⟨hne, htl⟩

theorem spec_of_partMatchAt (rest d : List Char) (h : partMatchAt rest = some d) :
    ∃ p1 p2 p3 p4 tail,
      rest = '.' :: p1 :: p2 :: p3 :: p4 :: (d ++ tail)
      ∧ lcEq p1 'p' = true ∧ lcEq p2 'a' = true
      ∧ lcEq p3 'r' = true ∧ lcEq p4 't' = true
      ∧ d ≠ [] ∧ (∀ c ∈ d, c.isDigit = true)
      ∧ (tail = [] ∨ finalExtSuffix tail = true) := by
  match rest with
  | [] => exact absurd h (by simp [partMatchAt])
  | [c0] => exact absurd h (by simp [partMatchAt])
  | [c0, c1] => exact absurd h (by simp [partMatchAt])
  | [c0, c1, c2] => exact absurd h (by simp [partMatchAt])
  | [c0, c1, c2, c3] => exact absurd h (by simp [partMatchAt])
  | c0 :: c1 :: c2 :: c3 :: c4 :: rest2 =>
    have h2 : (if partHeadOk c0 c1 c2 c3 c4 then partDigitsOf rest2 else none)
        = some d := h
    split at h2
    · rename_i hhead
      obtain ⟨hd0, hne, htl⟩ := (partDigitsOf_eq_some rest2 d).mp h2
      unfold partHeadOk at hhead
      simp only [Bool.and_eq_true, beq_iff_eq] at hhead
      obtain ⟨⟨⟨⟨hc0, hp⟩, ha⟩, hr⟩, ht⟩ := hhead
      subst hc0
      have h9 : rest2 = d ++ List.drop d.length rest2 := by
        rw [hd0]
        exact (takeWhile_append_drop Char.isDigit rest2).symm
      refine ⟨c1, c2, c3, c4, rest2.drop d.length, ?_, hp, ha, hr, ht, hne, ?_, htl⟩
      · rw [← h9]
      · intro c hc
        exact mem_takeWhile_pred Char.isDigit rest2 c (hd0 ▸ hc)
    · exact absurd h2 (by simp)

theorem digits_takeWhile_eq (digits tail : List Char)
    (hdig : ∀ c ∈ digits, c.isDigit = true)
    (htl : tail = [] ∨ finalExtSuffix tail = true) :
    (digits ++ tail).takeWhile Char.isDigit = digits := by
  refine takeWhile_all_append Char.isDigit digits tail hdig ?_
  rcases htl with rfl | hfe
  · rfl
  · match tail, hfe with
    | c :: rest, hfe =>
      unfold finalExtSuffix at hfe
      simp only [Bool.and_eq_true, beq_iff_eq] at hfe
      rw [List.takeWhile_cons, if_neg]
      rw [hfe.1.1]
      decide

theorem partMatchAt_of_spec (p1 p2 p3 p4 : Char) (digits tail : List Char)
    (hp : lcEq p1 'p' = true) (ha : lcEq p2 'a' = true)
    (hr : lcEq p3 'r' = true) (ht : lcEq p4 't' = true)
    (hne : digits ≠ []) (hdig : ∀ c ∈ digits, c.isDigit = true)
    (htl : tail = [] ∨ finalExtSuffix tail = true) :
    partMatchAt ('.' :: p1 :: p2 :: p3 :: p4 :: (digits ++ tail))
      = some digits := by
  have hh : partHeadOk '.' p1 p2 p3 p4 = true := by
    unfold partHeadOk
    simp [hp, ha, hr, ht]
  show (if partHeadOk '.' p1 p2 p3 p4 then partDigitsOf (digits ++ tail) else none)
      = some digits
  rw [if_pos hh, partDigitsOf_eq_some]
  have htw := digits_takeWhile_eq digits tail hdig htl
  refine ⟨htw.symm, hne, ?_⟩
  rw [List.drop_left]
  exact htl

theorem findPartDigits_spec (l : List Char) :
    ∀ d, findPartDigits l = some d → specPartSegment l (digitsToNat d) := by
  induction l with
  | nil => intro d h; exact absurd h (by simp [findPartDigits])
  | cons c rest ih =>
    intro d h
    rw [findPartDigits] at h
    cases hm : partMatchAt (c :: rest) with
    | some d2 =>
      rw [hm] at h
      cases h
      obtain ⟨p1, p2, p3, p4, tail, heq, hp, ha, hr, ht, hne, hdig, htl⟩ :=
        spec_of_partMatchAt (c :: rest) d hm
      exact ⟨[], p1, p2, p3, p4, d, tail, by rw [heq]; rfl,
        hp, ha, hr, ht, hne, hdig, htl, rfl⟩
    | none =>
      rw [hm] at h
      obtain ⟨pre, p1, p2, p3, p4, digits, tail, heq, rest6⟩ := ih d h
      exact ⟨c :: pre, p1, p2, p3, p4, digits, tail, by rw [heq]; rfl, rest6⟩

theorem findPartDigits_isSome_of_spec (pre : List Char) :
    ∀ l, (∃ p1 p2 p3 p4 digits tail,
        l = pre ++ '.' :: p1 :: p2 :: p3 :: p4 :: (digits ++ tail)
        ∧ lcEq p1 'p' = true ∧ lcEq p2 'a' = true
        ∧ lcEq p3 'r' = true ∧ lcEq p4 't' = true
        ∧ digits ≠ [] ∧ (∀ c ∈ digits, c.isDigit = true)
        ∧ (tail = [] ∨ finalExtSuffix tail = true)) →
      (findPartDigits l).isSome = true := by
  induction pre with
  | nil =>
    intro l hdec
    obtain ⟨p1, p2, p3, p4, digits, tail, heq, hp, ha, hr, ht, hne, hdig, htl⟩ := hdec
    rw [List.nil_append] at heq
    subst heq
    rw [findPartDigits,
      partMatchAt_of_spec p1 p2 p3 p4 digits tail hp ha hr ht hne hdig htl]
    rfl
  | cons c pre ih =>
    intro l hdec
    obtain ⟨p1, p2, p3, p4, digits, tail, heq, hp, ha, hr, ht, hne, hdig, htl⟩ := hdec
    subst heq
    rw [List.cons_append, findPartDigits]
    cases hm : partMatchAt
        (c :: (pre ++ '.' :: p1 :: p2 :: p3 :: p4 :: (digits ++ tail))) with
    | some d2 => rfl
    | none =>
      exact ih (pre ++ '.' :: p1 :: p2 :: p3 :: p4 :: (digits ++ tail))
        ⟨p1, p2, p3, p4, digits, tail, rfl, hp, ha, hr, ht, hne, hdig, htl⟩

theorem findPartDigits_isSome_iff (l : List Char) :
    (findPartDigits l).isSome = true ↔ ∃ n, specPartSegment l n := by
  constructor
  · intro h
    cases hf : findPartDigits l with
    | none => rw [hf] at h; exact absurd h (by simp)
    | some d => exact ⟨digitsToNat d, findPartDigits_spec l d hf⟩
  · rintro ⟨n, hsp⟩
    obtain ⟨pre, p1, p2, p3, p4, digits, tail, heq, hp, ha, hr, ht, hne, hdig, htl,
      _⟩ := hsp
    exact findPartDigits_isSome_of_spec pre l
      ⟨p1, p2, p3, p4, digits, tail, heq, hp, ha, hr, ht, hne, hdig, htl⟩

/-- C4 counterexample: the claim marks the absence of a name (and a blank
name) as final, but parseImageStreamFrameInfo returns isFinal = false for
them. -/
theorem parseFrameInfo_absent_name_not_final :
    (parseImageStreamFrameInfo none).isFinal = false
      ∧ (parseImageStreamFrameInfo (some "")).isFinal = false
      ∧ (parseImageStreamFrameInfo (some "   ")).isFinal = false := by
  refine ⟨by decide, by decide, by decide⟩

/-- C4 amended: on the normalized name, parseImageStreamFrameInfo marks
the candidate as stream part N exactly when the name contains a
case-insensitive .part<N> segment immediately before the final extension
or at the end (with partIndex the digits of such a segment and isFinal
false); any other non-empty name is final; an empty or absent name is
neither part nor final; isPart and isFinal are never both true. -/
theorem parseImageStreamFrameInfo_spec (v : Option String) :
    ¬((parseImageStreamFrameInfo v).isPart = true
        ∧ (parseImageStreamFrameInfo v).isFinal = true)
    ∧ ((parseImageStreamFrameInfo v).fileName = "" →
        (parseImageStreamFrameInfo v).isPart = false
          ∧ (parseImageStreamFrameInfo v).isFinal = false
          ∧ (parseImageStreamFrameInfo v).partIndex = none)
    ∧ ((parseImageStreamFrameInfo v).fileName ≠ "" →
        (((parseImageStreamFrameInfo v).isPart = true
            ↔ ∃ n, specPartSegment (parseImageStreamFrameInfo v).fileName.toList n)
          ∧ ((parseImageStreamFrameInfo v).isFinal = true
            ↔ ¬∃ n, specPartSegment (parseImageStreamFrameInfo v).fileName.toList n)
          ∧ ((parseImageStreamFrameInfo v).isPart = true →
              ∃ n, (parseImageStreamFrameInfo v).partIndex = some n
                ∧ specPartSegment (parseImageStreamFrameInfo v).fileName.toList n))) := by
  unfold parseImageStreamFrameInfo
  generalize nameOfValue v = name
  by_cases hempty : name = ""
  · rw [if_pos (beq_iff_eq.mpr hempty)]
    refine ⟨?_, fun _ => ⟨rfl, rfl, rfl⟩, fun hc => absurd rfl hc⟩
    rintro ⟨_, h2⟩
    exact Bool.false_ne_true h2
  · rw [if_neg (by simpa using hempty)]
    cases hf : findPartDigits name.toList with
    | none =>
      have hnone : ¬∃ n, specPartSegment name.toList n := by
        intro hex
        have h2 := (findPartDigits_isSome_iff name.toList).mpr hex
        rw [hf] at h2
        exact absurd h2 (by simp)
      refine ⟨?_, fun h => absurd h hempty, fun _ => ?_⟩
      · rintro ⟨h1, _⟩
        exact Bool.false_ne_true h1
      refine ⟨⟨fun h1 => absurd h1 Bool.false_ne_true, fun hex => absurd hex hnone⟩,
        ⟨fun _ => hnone, fun _ => rfl⟩,
        fun h1 => absurd h1 Bool.false_ne_true⟩
    | some d =>
      have hspec := findPartDigits_spec name.toList d hf
      refine ⟨?_, fun h => absurd h hempty, fun _ => ?_⟩
      · rintro ⟨_, h2⟩
        exact Bool.false_ne_true h2
      refine ⟨⟨fun _ => ⟨digitsToNat d, hspec⟩, fun _ => rfl⟩,
        ⟨fun h2 => absurd h2 Bool.false_ne_true,
          fun hneg => absurd ⟨digitsToNat d, hspec⟩ hneg⟩,
        fun _ => ⟨digitsToNat d, rfl, hspec⟩⟩

/-! Byte resolver: the retry loop contract. -/

theorem runAttempts_ok_spec (env : FetchEnv) :
    ∀ r a res bs, runAttemptsAux env a r = (Except.ok res, bs) →
      isJsonContentType res.contentType = false
        ∧ ∃ i, a ≤ i ∧ i < a + r
            ∧ attemptAt env i
              = AttemptOutcome.gotResponse true res.status res.contentType
                  res.fileName res.bytes := by
  intro r
  induction r with
  | zero =>
    intro a res bs h
    simp [runAttemptsAux] at h
  | succ r ih =>
    intro a res bs h
    rw [runAttemptsAux] at h
    cases hA : attemptAt env a with
    | threw msg =>
      simp only [hA] at h
      by_cases hr : r = 0
      · rw [if_pos hr] at h
        exact absurd h (by simp)
      · rw [if_neg hr] at h
        injection h with h1 h2
        obtain ⟨hj, i, hi1, hi2, hi3⟩ :=
          ih (a + 1) res (runAttemptsAux env (a + 1) r).2
            (by rw [← h1])
        exact ⟨hj, i, by omega, by omega, hi3⟩
    | gotResponse ok status ct disp bytes =>
      simp only [hA] at h
      by_cases hacc : (ok && !isJsonContentType ct) = true
      · rw [if_pos hacc] at h
        injection h with h1 h2
        obtain ⟨hok, hj⟩ := Bool.and_eq_true_iff.mp hacc
        have hres : res = { bytes := bytes, contentType := ct, status := status, fileName := disp } := by
          injection h1 with h3
          exact h3.symm
        subst hres
        subst hok
        refine ⟨by simpa using hj, a, Nat.le_refl a, by omega, hA⟩
      · rw [if_neg hacc] at h
        by_cases hr : r = 0
        · rw [if_pos hr] at h
          exact absurd h (by simp)
        · rw [if_neg hr] at h
          injection h with h1 h2
          obtain ⟨hj, i, hi1, hi2, hi3⟩ :=
            ih (a + 1) res (runAttemptsAux env (a + 1) r).2
              (by rw [← h1])
          exact ⟨hj, i, by omega, by omega, hi3⟩

theorem runAttempts_allFail (env : FetchEnv) :
    ∀ r a, (∀ i, a ≤ i → i < a + r → attemptFailed env i) →
      (runAttemptsAux env a r).1 = Except.error "download_failed" := by
  intro r
  induction r with
  | zero => intro a _; rfl
  | succ r ih =>
    intro a hall
    rw [runAttemptsAux]
    have hfail := hall a (Nat.le_refl a) (by omega)
    unfold attemptFailed at hfail
    cases hA : attemptAt env a with
    | threw msg =>
      simp only [hA]
      by_cases hr : r = 0
      · subst hr; rfl
      · simp only [if_neg hr]
        exact ih (a + 1) (fun i h1 h2 => hall i (by omega) (by omega))
    | gotResponse ok status ct disp bytes =>
      simp only [hA]
      rw [hA] at hfail
      have hacc : (ok && !isJsonContentType ct) = false := by
        rcases hfail with h1 | h1
        · rw [h1]; rfl
        · rw [h1]; simp
      rw [hacc]
      simp only [Bool.false_eq_true, if_false]
      by_cases hr : r = 0
      · subst hr; rfl
      · simp only [if_neg hr]
        exact ih (a + 1) (fun i h1 h2 => hall i (by omega) (by omega))

theorem runAttempts_backoffs (env : FetchEnv) :
    ∀ r a, (∀ x ∈ (runAttemptsAux env a r).2, 350 * a ≤ x)
      ∧ List.Pairwise (· < ·) (runAttemptsAux env a r).2
      ∧ (runAttemptsAux env a r).2.length ≤ r - 1 := by
  intro r
  induction r with
  | zero =>
    intro a
    exact ⟨by intro x hx; simp [runAttemptsAux] at hx, by simp [runAttemptsAux], by simp [runAttemptsAux]⟩
  | succ r ih =>
    intro a
    rw [runAttemptsAux]
    cases hA : attemptAt env a with
    | threw msg =>
      simp only [hA]
      by_cases hr : r = 0
      · subst hr
        exact ⟨by intro x hx; simp at hx, by simp, by simp⟩
      · simp only [if_neg hr]
        obtain ⟨hle, hpw, hlen⟩ := ih (a + 1)
        refine ⟨?_, ?_, by simp only [List.length_cons]; omega⟩
        · intro x hx
          rcases List.mem_cons.mp hx with rfl | hx
          · exact Nat.le_refl _
          · have := hle x hx; omega
        · refine List.Pairwise.cons ?_ hpw
          intro x hx
          have := hle x hx
          omega
    | gotResponse ok status ct disp bytes =>
      simp only [hA]
      by_cases hacc : (ok && !isJsonContentType ct) = true
      · rw [if_pos hacc]
        exact ⟨by intro x hx; simp at hx, by simp, by simp⟩
      · rw [if_neg hacc]
        by_cases hr : r = 0
        · subst hr
          exact ⟨by intro x hx; simp at hx, by simp, by simp⟩
        · simp only [if_neg hr]
          obtain ⟨hle, hpw, hlen⟩ := ih (a + 1)
          refine ⟨?_, ?_, by simp only [List.length_cons]; omega⟩
          · intro x hx
            rcases List.mem_cons.mp hx with rfl | hx
            · exact Nat.le_refl _
            · have := hle x hx; omega
          · refine List.Pairwise.cons ?_ hpw
            intro x hx
            have := hle x hx
            omega

/-! processResponse path lemmas: scope, dedup, and branch selection. -/

theorem processResponse_out_of_scope (cfg : Cfg) (st : SState) (r : RespInput)
    (h : inScope r = false) : processResponse cfg st r = st := by
  unfold inScope at h
  unfold processResponse
  by_cases hh : r.url.hostname = "chatgpt.com"
  · rw [hh] at h
    simp only [beq_self_eq_true, Bool.true_and] at h
    have h1 : (r.url.hostname != "chatgpt.com") = false := by simp [hh]
    rw [h1]
    simp only [Bool.false_eq_true, if_false]
    have h2 := Bool.or_eq_false_iff.mp h
    rw [h2.1, h2.2]
    rfl
  · have h1 : (r.url.hostname != "chatgpt.com") = true := by simp [hh]
    rw [h1]
    rfl

theorem processResponse_dup_drop (cfg : Cfg) (st : SState) (r : RespInput)
    (himg : modeIsImage st.imageRun = false)
    (hseen : st.seen.contains (dedupeKey r) = true) :
    processResponse cfg st r = st := by
  unfold processResponse
  by_cases hh : r.url.hostname = "chatgpt.com"
  · have h1 : (r.url.hostname != "chatgpt.com") = false := by simp [hh]
    rw [h1]
    simp only [Bool.false_eq_true, if_false]
    by_cases hsc : (!strStartsWith r.url.pathname "/backend-api/estuary/content"
        && !strStartsWith r.url.pathname "/backend-api/files/download/") = true
    · rw [if_pos hsc]
    · rw [if_neg hsc, himg, hseen]
      rfl
  · have h1 : (r.url.hostname != "chatgpt.com") = true := by simp [hh]
    rw [h1]
    rfl

theorem processResponse_downloadJson_eq (cfg : Cfg) (st : SState) (r : RespInput)
    (hhost : r.url.hostname = "chatgpt.com")
    (hdl : strStartsWith r.url.pathname "/backend-api/files/download/" = true)
    (hjson : isJsonContentType r.contentType = true)
    (hpass : modeIsImage st.imageRun = true
      ∨ st.seen.contains (dedupeKey r) = false) :
    processResponse cfg st r = processDownloadJson cfg (afterDedup st r) r := by
  have h1 : (r.url.hostname != "chatgpt.com") = false := by simp [hhost]
  unfold processResponse afterDedup
  rcases hpass with hm | hseen
  · simp [h1, hdl, hjson, hm]
  · by_cases hm : modeIsImage st.imageRun
    · simp [h1, hdl, hjson, hm]
    · simp [h1, hdl, hjson, hm, hseen]
      exact fun h2 => absurd h2 (by simpa using hseen)

theorem processResponse_binary_eq (cfg : Cfg) (st : SState) (r : RespInput)
    (hhost : r.url.hostname = "chatgpt.com")
    (hscope : strStartsWith r.url.pathname "/backend-api/estuary/content" = true
      ∨ strStartsWith r.url.pathname "/backend-api/files/download/" = true)
    (hnj : isJsonContentType r.contentType = false)
    (hpass : modeIsImage st.imageRun = true
      ∨ st.seen.contains (dedupeKey r) = false) :
    processResponse cfg st r = processBinary cfg (afterDedup st r) r := by
  have h1 : (r.url.hostname != "chatgpt.com") = false := by simp [hhost]
  unfold processResponse afterDedup
  rcases hscope with hs | hs <;> rcases hpass with hm | hm
  · simp [h1, hs, hnj, hm]
  · by_cases hm2 : modeIsImage st.imageRun
    · simp [h1, hs, hnj, hm2]
    · simp [h1, hs, hnj, hm2, hm]
      exact fun h2 => absurd h2 (by simpa using hm)
  · simp [h1, hs, hnj, hm]
  · by_cases hm2 : modeIsImage st.imageRun
    · simp [h1, hs, hnj, hm2]
    · simp [h1, hs, hnj, hm2, hm]
      exact fun h2 => absurd h2 (by simpa using hm)

theorem processResponse_estuary_eq (cfg : Cfg) (st : SState) (r : RespInput)
    (hhost : r.url.hostname = "chatgpt.com")
    (hest : strStartsWith r.url.pathname "/backend-api/estuary/content" = true)
    (hndl : strStartsWith r.url.pathname "/backend-api/files/download/" = false)
    (hjson : isJsonContentType r.contentType = true)
    (hpass : modeIsImage st.imageRun = true
      ∨ st.seen.contains (dedupeKey r) = false) :
    processResponse cfg st r = processEstuary cfg (afterDedup st r) r := by
  have h1 : (r.url.hostname != "chatgpt.com") = false := by simp [hhost]
  unfold processResponse afterDedup
  rcases hpass with hm | hseen
  · simp [h1, hest, hndl, hjson, hm]
  · by_cases hm : modeIsImage st.imageRun
    · simp [h1, hest, hndl, hjson, hm]
    · simp [h1, hest, hndl, hjson, hm, hseen]
      exact fun h2 => absurd h2 (by simpa using hseen)

theorem emit_imageRun (st : SState) (e : StreamEvent) :
    (emit st e).imageRun = st.imageRun := rfl

theorem emit_savedCount (st : SState) (e : StreamEvent) :
    (emit st e).savedCount = st.savedCount := rfl

theorem emit_finished (st : SState) (e : StreamEvent) :
    (emit st e).finished = st.finished := rfl

theorem emit_savedFiles (st : SState) (e : StreamEvent) :
    (emit st e).savedFiles = st.savedFiles := rfl

theorem emit_seen (st : SState) (e : StreamEvent) :
    (emit st e).seen = st.seen := rfl

theorem emit_idleTimer (st : SState) (e : StreamEvent) :
    (emit st e).idleTimer = st.idleTimer := rfl

theorem emit_streamEvents (st : SState) (e : StreamEvent) :
    (emit st e).streamEvents = st.streamEvents ++ [e] := rfl

theorem processDownloadJson_fetchError (cfg : Cfg) (st : SState) (r : RespInput)
    (fi : FileInfo) (du : Url) (msg : String) (bs : List Nat)
    (hjson2 : r.jsonInfo = some fi)
    (hecho : (ignoredFileNameSet cfg).isEmpty = true
      ∨ isLikelyUploadEchoMetadata fi = false)
    (hdu : fi.download_url = some du) (hraw : du.raw ≠ "")
    (hfetch : fetchDownloadWithRetry (modeIsFile st.imageRun)
      cfg.preferCurlDownloads r.fetchEnv = (Except.error msg, bs)) :
    ∃ ev1 ev2, processDownloadJson cfg st r = emit (emit st ev1) ev2
      ∧ ev1.type = "download_url_resolved" ∧ ev2.type = "save_failed"
      ∧ ev2.message = msg := by
  have hg : (!(ignoredFileNameSet cfg).isEmpty && isLikelyUploadEchoMetadata fi)
      = false := by
    rcases hecho with h | h <;> simp [h]
  have hraw2 : (du.raw != "") = true := by simpa using hraw
  unfold processDownloadJson
  simp only [hjson2, hg, Bool.false_eq_true, if_false, hdu, hraw2, if_true,
    emit_imageRun, hfetch]
  exact ⟨_, _, rfl, rfl, rfl, rfl⟩

theorem afterDedup_imageRun (st : SState) (r : RespInput) :
    (afterDedup st r).imageRun = st.imageRun := by
  unfold afterDedup; split <;> rfl

theorem afterDedup_finished (st : SState) (r : RespInput) :
    (afterDedup st r).finished = st.finished := by
  unfold afterDedup; split <;> rfl

theorem afterDedup_savedCount (st : SState) (r : RespInput) :
    (afterDedup st r).savedCount = st.savedCount := by
  unfold afterDedup; split <;> rfl

theorem afterDedup_savedFiles (st : SState) (r : RespInput) :
    (afterDedup st r).savedFiles = st.savedFiles := by
  unfold afterDedup; split <;> rfl

theorem afterDedup_streamEvents (st : SState) (r : RespInput) :
    (afterDedup st r).streamEvents = st.streamEvents := by
  unfold afterDedup; split <;> rfl

theorem afterDedup_metadataIds (st : SState) (r : RespInput) :
    (afterDedup st r).metadataIds = st.metadataIds := by
  unfold afterDedup; split <;> rfl

theorem afterDedup_idleTimer (st : SState) (r : RespInput) :
    (afterDedup st r).idleTimer = st.idleTimer := by
  unfold afterDedup; split <;> rfl

theorem afterDedup_saw (st : SState) (r : RespInput) :
    (afterDedup st r).sawImageStreamPartFrame = st.sawImageStreamPartFrame
      ∧ (afterDedup st r).sawImageFinalFrame = st.sawImageFinalFrame
      ∧ (afterDedup st r).convoStreamCompleted = st.convoStreamCompleted
      ∧ (afterDedup st r).timeoutArmed = st.timeoutArmed := by
  unfold afterDedup; split <;> exact ⟨rfl, rfl, rfl, rfl⟩

theorem step_resp_eq (cfg : Cfg) (st : SState) (r : RespInput)
    (hfin : st.finished = false) :
    step cfg st (SEvent.resp r) = processResponse cfg st r := by
  unfold step
  rw [hfin]
  rfl

/-- C7 counterexample: with the accelerated curl path configured (file
mode with preferCurlDownloads set) and curl succeeding, the byte resolver
returns bytes whose content type is the metadata JSON type, so "returns
bytes only from a response whose content type is not the metadata JSON
type" is false as stated. -/
theorem fetchRetry_curl_json_counterexample :
    (fetchDownloadWithRetry true true { curl := witCurl }).1
      = Except.ok
          { bytes := 3, contentType := "application/json", status := 200,
            fileName := "" }
      ∧ isJsonContentType "application/json" = true := by
  exact ⟨rfl, by decide⟩

/-- C7 amended: when the curl fast path is disabled or fails, the byte
resolver accepts only a browser response with ok status and non-JSON
content type, within four attempts; backoffs between attempts strictly
increase and number at most three; exhausting every attempt produces the
terminal download error; and a session response whose nested fetch ends
in that terminal error gains one save_failed stream event after the
resolved event while finished, savedCount and savedFiles are untouched —
the session continues. -/
theorem fetchDownloadWithRetry_contract (preferCurl preferCurlDownloads : Bool)
    (env : FetchEnv)
    (hcurl : preferCurl = false ∨ preferCurlDownloads = false
      ∨ env.curl.ok = false) :
    (∀ res bs,
        fetchDownloadWithRetry preferCurl preferCurlDownloads env
          = (Except.ok res, bs) →
        isJsonContentType res.contentType = false
          ∧ ∃ i, 1 ≤ i ∧ i ≤ 4
              ∧ attemptAt env i
                = AttemptOutcome.gotResponse true res.status res.contentType
                    res.fileName res.bytes)
      ∧ ((∀ i, 1 ≤ i → i ≤ 4 → attemptFailed env i) →
        (fetchDownloadWithRetry preferCurl preferCurlDownloads env).1
          = Except.error "download_failed")
      ∧ List.Pairwise (· < ·)
          (fetchDownloadWithRetry preferCurl preferCurlDownloads env).2
      ∧ (fetchDownloadWithRetry preferCurl preferCurlDownloads env).2.length ≤ 3
      ∧ (∀ (cfg : Cfg) (st : SState) (r : RespInput) (fi : FileInfo) (du : Url)
          (msg : String) (bs : List Nat),
          st.finished = false →
          r.url.hostname = "chatgpt.com" →
          strStartsWith r.url.pathname "/backend-api/files/download/" = true →
          isJsonContentType r.contentType = true →
          (modeIsImage st.imageRun = true
            ∨ st.seen.contains (dedupeKey r) = false) →
          r.jsonInfo = some fi →
          ((ignoredFileNameSet cfg).isEmpty = true
            ∨ isLikelyUploadEchoMetadata fi = false) →
          fi.download_url = some du → du.raw ≠ "" →
          fetchDownloadWithRetry (modeIsFile st.imageRun) cfg.preferCurlDownloads
              r.fetchEnv
            = (Except.error msg, bs) →
          (step cfg st (SEvent.resp r)).finished = false
            ∧ (step cfg st (SEvent.resp r)).savedCount = st.savedCount
            ∧ (step cfg st (SEvent.resp r)).savedFiles = st.savedFiles
            ∧ ∃ ev1 ev2, (step cfg st (SEvent.resp r)).streamEvents
                = st.streamEvents ++ [ev1, ev2]
              ∧ ev1.type = "download_url_resolved" ∧ ev2.type = "save_failed"
              ∧ ev2.message = msg) := by
  have hbrowser : fetchDownloadWithRetry preferCurl preferCurlDownloads env
      = runAttemptsAux env 1 4 := by
    unfold fetchDownloadWithRetry
    have hcond : (preferCurl && preferCurlDownloads && env.curl.ok) = false := by
      rcases hcurl with h | h | h <;> simp [h]
    rw [hcond]
    simp
  refine ⟨?_, ?_, ?_, ?_, ?_⟩
  · intro res bs h
    rw [hbrowser] at h
    obtain ⟨hj, i, hi1, hi2, hi3⟩ := runAttempts_ok_spec env 4 1 res bs h
    exact ⟨hj, i, hi1, by omega, hi3⟩
  · intro hall
    rw [hbrowser]
    exact runAttempts_allFail env 4 1 (fun i h1 h2 => hall i h1 (by omega))
  · rw [hbrowser]
    exact (runAttempts_backoffs env 4 1).2.1
  · rw [hbrowser]
    have := (runAttempts_backoffs env 4 1).2.2
    omega
  · intro cfg st r fi du msg bs hfin hhost hdl hjson hpass hjson2 hecho hdu hraw
      hfetch
    rw [step_resp_eq cfg st r hfin,
      processResponse_downloadJson_eq cfg st r hhost hdl hjson hpass]
    have hfetch2 : fetchDownloadWithRetry (modeIsFile (afterDedup st r).imageRun)
        cfg.preferCurlDownloads r.fetchEnv = (Except.error msg, bs) := by
      rw [afterDedup_imageRun]
      exact hfetch
    obtain ⟨ev1, ev2, heq, ht1, ht2, hm2⟩ :=
      processDownloadJson_fetchError cfg (afterDedup st r) r fi du msg bs
        hjson2 hecho hdu hraw hfetch2
    rw [heq]
    refine ⟨?_, ?_, ?_, ev1, ev2, ?_, ht1, ht2, hm2⟩
    · rw [emit_finished, emit_finished, afterDedup_finished]
      exact hfin
    · rw [emit_savedCount, emit_savedCount, afterDedup_savedCount]
    · rw [emit_savedFiles, emit_savedFiles, afterDedup_savedFiles]
    · rw [emit_streamEvents, emit_streamEvents, afterDedup_streamEvents]
      simp

/-- Witness for C7 at a concrete session: a metadata response whose
nested fetch fails on all four attempts is reported as save_failed and
the session keeps running. -/
theorem fetchDownloadWithRetry_contract_witness :
    ((fetchDownloadWithRetry false true {}).1 = Except.error "download_failed")
      ∧ (step ({} : Cfg) (initState {}) (SEvent.resp witResp)).finished = false := by
  have h := fetchDownloadWithRetry_contract false true {} (Or.inl rfl)
  refine ⟨h.2.1 (fun i _ _ => trivial), ?_⟩
  exact (h.2.2.2.2 {} (initState {}) witResp witFi witUrlCdn
    "download_failed" [350, 700, 1050]
    rfl rfl (by decide) (by decide) (Or.inr (by decide)) rfl (Or.inl (by decide))
    rfl (by decide) rfl).1

/-- C5 counterexample: in a session with no uploaded reference files,
a metadata response with null file_name and file_size_bytes (an upload
echo by the claim's definition) is fetched and saved: savedCount becomes
1, the file lands in savedFiles, and no file_ignored event is emitted. -/
theorem uploadEcho_saved_without_references :
    isLikelyUploadEchoMetadata witEchoFi = true
      ∧ (step ({} : Cfg) (initState {}) (SEvent.resp witEchoResp)).savedCount = 1
      ∧ (step ({} : Cfg) (initState {}) (SEvent.resp witEchoResp)).savedFiles.length
          = 1
      ∧ ((step ({} : Cfg) (initState {}) (SEvent.resp witEchoResp)).streamEvents.filter
          (fun e => e.type == "file_ignored")) = [] := by
  refine ⟨by decide, by decide, by decide, by decide⟩

/-- C5 amended: in a capture session holding at least one uploaded
reference file name, every metadata download response whose decoded body
has neither a non-empty file_name nor a positive file_size_bytes is
discarded as an upload echo: exactly one file_ignored event with the
upload-echo reason is appended, and savedCount and savedFiles are
unchanged. -/
theorem uploadEchoMetadata_discarded (cfg : Cfg) (st : SState) (r : RespInput)
    (fi : FileInfo)
    (hrefs : (ignoredFileNameSet cfg).isEmpty = false)
    (hfin : st.finished = false)
    (hhost : r.url.hostname = "chatgpt.com")
    (hdl : strStartsWith r.url.pathname "/backend-api/files/download/" = true)
    (hjson : isJsonContentType r.contentType = true)
    (hpass : modeIsImage st.imageRun = true
      ∨ st.seen.contains (dedupeKey r) = false)
    (hjson2 : r.jsonInfo = some fi)
    (hecho : isLikelyUploadEchoMetadata fi = true) :
    ∃ ev, step cfg st (SEvent.resp r) = emit (afterDedup st r) ev
      ∧ ev.type = "file_ignored"
      ∧ ev.reason = some "upload_echo_metadata_null_fields"
      ∧ (step cfg st (SEvent.resp r)).savedCount = st.savedCount
      ∧ (step cfg st (SEvent.resp r)).savedFiles = st.savedFiles
      ∧ (step cfg st (SEvent.resp r)).streamEvents = st.streamEvents ++ [ev] := by
  rw [step_resp_eq cfg st r hfin,
    processResponse_downloadJson_eq cfg st r hhost hdl hjson hpass]
  have hg : (!(ignoredFileNameSet cfg).isEmpty && isLikelyUploadEchoMetadata fi)
      = true := by
    simp [hrefs, hecho]
  unfold processDownloadJson
  simp only [hjson2, hg, if_true]
  refine ⟨_, rfl, rfl, rfl, ?_, ?_, ?_⟩
  · rw [emit_savedCount, afterDedup_savedCount]
  · rw [emit_savedFiles, afterDedup_savedFiles]
  · rw [emit_streamEvents, afterDedup_streamEvents]

/-- Witness for C5: the echo response is discarded in a session with an
uploaded reference name. -/
theorem uploadEchoMetadata_discarded_witness :
    ∃ ev, step witCfgRef (initState witCfgRef) (SEvent.resp witEchoResp)
        = emit (afterDedup (initState witCfgRef) witEchoResp) ev
      ∧ ev.type = "file_ignored"
      ∧ ev.reason = some "upload_echo_metadata_null_fields"
      ∧ (step witCfgRef (initState witCfgRef) (SEvent.resp witEchoResp)).savedCount
          = (initState witCfgRef).savedCount
      ∧ (step witCfgRef (initState witCfgRef) (SEvent.resp witEchoResp)).savedFiles
          = (initState witCfgRef).savedFiles
      ∧ (step witCfgRef (initState witCfgRef) (SEvent.resp witEchoResp)).streamEvents
          = (initState witCfgRef).streamEvents ++ [ev] :=
  uploadEchoMetadata_discarded witCfgRef (initState witCfgRef) witEchoResp witEchoFi
    (by decide) rfl rfl (by decide) (by decide) (Or.inr (by decide)) rfl (by decide)

/-! Frame lemmas: the branch handlers never touch the dedup set and
preserve the generation mode of the run. -/

theorem finish_seen (st : SState) : (finish st).seen = st.seen := by
  unfold finish; split <;> rfl

theorem finish_imageRun (st : SState) : (finish st).imageRun = st.imageRun := by
  unfold finish; split <;> rfl

theorem finish_finished (st : SState) : (finish st).finished = true ∨ finish st = st := by
  unfold finish
  split
  · exact Or.inr rfl
  · exact Or.inl rfl

theorem scheduleIdleCheck_seen (cfg : Cfg) (st : SState) :
    (scheduleIdleCheck cfg st).seen = st.seen := by
  unfold scheduleIdleCheck
  dsimp only
  repeat' split
  all_goals rfl

theorem scheduleIdleCheck_imageRun (cfg : Cfg) (st : SState) :
    (scheduleIdleCheck cfg st).imageRun = st.imageRun := by
  unfold scheduleIdleCheck
  dsimp only
  repeat' split
  all_goals rfl

theorem afterSaveUpdate_seen (cfg : Cfg) (st : SState) :
    (afterSaveUpdate cfg st).seen = st.seen := by
  unfold afterSaveUpdate
  repeat' split
  all_goals simp [finish_seen, scheduleIdleCheck_seen]

theorem afterSaveUpdate_imageRun (cfg : Cfg) (st : SState) :
    (afterSaveUpdate cfg st).imageRun = st.imageRun := by
  unfold afterSaveUpdate
  repeat' split
  all_goals simp [finish_imageRun, scheduleIdleCheck_imageRun]

theorem saveBufferToDisk_mode (outputDir : String) (run : Option ImageRun)
    (d : Disk) (bytes : Nat) (fileName : Option String) (ct : String)
    (mid : Option String) (nowTag : Nat) :
    modeIsImage (saveBufferToDisk outputDir run d bytes fileName ct mid nowTag).2.1
        = modeIsImage run
      ∧ modeIsFile (saveBufferToDisk outputDir run d bytes fileName ct mid nowTag).2.1
        = modeIsFile run := by
  unfold saveBufferToDisk nextRandomBaseName
  cases run with
  | none => exact ⟨rfl, rfl⟩
  | some r1 =>
    by_cases hr : r1.randomizeFileNames <;>
      simp [hr, modeIsImage, modeIsFile]

theorem recordSavedEntry_seen (cfg : Cfg) (st : SState)
    (savedEntry : SavedFileEntry) (mid : Option String) (em : EventMeta)
    (ct : String) :
    (recordSavedEntry cfg st savedEntry mid em ct).seen = st.seen := by
  unfold recordSavedEntry
  rw [afterSaveUpdate_seen]
  dsimp only
  repeat' split
  all_goals simp [addMetadataId]
  all_goals first
  | rfl
  | (split <;> rfl)

theorem recordSavedEntry_imageRun (cfg : Cfg) (st : SState)
    (savedEntry : SavedFileEntry) (mid : Option String) (em : EventMeta)
    (ct : String) :
    (recordSavedEntry cfg st savedEntry mid em ct).imageRun = st.imageRun := by
  unfold recordSavedEntry
  rw [afterSaveUpdate_imageRun]
  dsimp only
  repeat' split
  all_goals simp [addMetadataId]
  all_goals first
  | rfl
  | (split <;> rfl)

theorem handleFileBuffer_seen_mode (cfg : Cfg) (st : SState) (bytes : Nat)
    (ct : String) (nameHint : String) (mid : Option String) (em : EventMeta)
    (nowTag : Nat) :
    (handleFileBuffer cfg st bytes ct nameHint mid em nowTag).seen = st.seen
      ∧ modeIsImage (handleFileBuffer cfg st bytes ct nameHint mid em nowTag).imageRun
        = modeIsImage st.imageRun := by
  unfold handleFileBuffer
  split
  · exact ⟨rfl, rfl⟩
  · have hm := saveBufferToDisk_mode cfg.outputDir st.imageRun st.disk bytes
      (some (if nameHint != "" then nameHint else "download-" ++ toString nowTag))
      ct mid nowTag
    rw [recordSavedEntry_seen, recordSavedEntry_imageRun]
    exact ⟨rfl, hm.1⟩

theorem finish_savedCount (st : SState) : (finish st).savedCount = st.savedCount := by
  unfold finish; split <;> rfl

theorem scheduleIdleCheck_savedCount (cfg : Cfg) (st : SState) :
    (scheduleIdleCheck cfg st).savedCount = st.savedCount := by
  unfold scheduleIdleCheck
  dsimp only
  repeat' split
  all_goals rfl

theorem afterSaveUpdate_savedCount (cfg : Cfg) (st : SState) :
    (afterSaveUpdate cfg st).savedCount = st.savedCount := by
  unfold afterSaveUpdate
  repeat' split
  all_goals simp [finish_savedCount, scheduleIdleCheck_savedCount]

theorem recordSavedEntry_savedCount (cfg : Cfg) (st : SState)
    (savedEntry : SavedFileEntry) (mid : Option String) (em : EventMeta)
    (ct : String) :
    (recordSavedEntry cfg st savedEntry mid em ct).savedCount
      = st.savedCount + 1 := by
  unfold recordSavedEntry
  rw [afterSaveUpdate_savedCount]
  dsimp only
  repeat' split
  all_goals simp [addMetadataId]
  all_goals first
  | rfl
  | (split <;> rfl)

theorem handleFileBuffer_savedCount (cfg : Cfg) (st : SState) (bytes : Nat)
    (ct : String) (nameHint : String) (mid : Option String) (em : EventMeta)
    (nowTag : Nat) :
    (handleFileBuffer cfg st bytes ct nameHint mid em nowTag).savedCount
      ≤ st.savedCount + 1 := by
  unfold handleFileBuffer
  split
  · exact Nat.le_succ _
  · rw [recordSavedEntry_savedCount]

theorem saveDownloadRecord_ok (outputDir : String) (run : Option ImageRun)
    (d : Disk) (rec : DownloadRecord) (env : FetchEnv) (pcd : Bool)
    (nowTag : Nat) (next : SaveResult) (run2 : Option ImageRun) (d2 : Disk)
    (h : saveDownloadRecord outputDir run d rec env pcd nowTag
      = Except.ok (next, run2, d2)) :
    next.savedCount ≤ 1 ∧ modeIsImage run2 = modeIsImage run := by
  unfold saveDownloadRecord at h
  cases hb : rec.buffer with
  | some b =>
    rw [hb] at h
    injection h with h1
    have h2 := congrArg (fun t => t.1.savedCount) h1
    have h3 := congrArg (fun t => t.2.1) h1
    simp only at h2 h3
    constructor
    · rw [← h2]; exact Nat.le_refl 1
    · rw [← h3]
      exact (saveBufferToDisk_mode _ _ _ _ _ _ _ _).1
  | none =>
    rw [hb] at h
    cases hd : rec.downloadUrl with
    | some u =>
      rw [hd] at h
      cases hf : fetchDownloadWithRetry (modeIsFile run) pcd env with
      | mk res bs =>
        cases res with
        | error msg => rw [hf] at h; exact absurd h (by simp)
        | ok okRes =>
          rw [hf] at h
          injection h with h1
          have h2 := congrArg (fun t => t.1.savedCount) h1
          have h3 := congrArg (fun t => t.2.1) h1
          simp only at h2 h3
          constructor
          · rw [← h2]; exact Nat.le_refl 1
          · rw [← h3]
            exact (saveBufferToDisk_mode _ _ _ _ _ _ _ _).1
    | none =>
      rw [hd] at h
      injection h with h1
      have h2 := congrArg (fun t => t.1.savedCount) h1
      have h3 := congrArg (fun t => t.2.1) h1
      simp only at h2 h3
      exact ⟨by rw [← h2]; exact Nat.zero_le 1, by rw [← h3]⟩

theorem foldl_pushSave_frame (r : RespInput) (l : List SavedFileEntry) :
    ∀ s : SState,
      ((l.foldl (fun s f =>
          emit { s with savedFiles := s.savedFiles ++ [f] }
            (binaryFileSavedEvent r f)) s).seen = s.seen)
      ∧ ((l.foldl (fun s f =>
          emit { s with savedFiles := s.savedFiles ++ [f] }
            (binaryFileSavedEvent r f)) s).savedCount = s.savedCount)
      ∧ ((l.foldl (fun s f =>
          emit { s with savedFiles := s.savedFiles ++ [f] }
            (binaryFileSavedEvent r f)) s).imageRun = s.imageRun)
      ∧ ((l.foldl (fun s f =>
          emit { s with savedFiles := s.savedFiles ++ [f] }
            (binaryFileSavedEvent r f)) s).finished = s.finished) := by
  induction l with
  | nil => intro s; exact ⟨rfl, rfl, rfl, rfl⟩
  | cons f fs ih =>
    intro s
    simp only [List.foldl_cons]
    exact ih _

theorem foldl_addIds_frame (l : List String) :
    ∀ s : SState,
      ((l.foldl (fun s mid => if mid != "" then addMetadataId s mid else s) s).seen
        = s.seen)
      ∧ ((l.foldl (fun s mid => if mid != "" then addMetadataId s mid else s) s).savedCount
        = s.savedCount)
      ∧ ((l.foldl (fun s mid => if mid != "" then addMetadataId s mid else s) s).imageRun
        = s.imageRun)
      ∧ ((l.foldl (fun s mid => if mid != "" then addMetadataId s mid else s) s).finished
        = s.finished) := by
  induction l with
  | nil => intro s; exact ⟨rfl, rfl, rfl, rfl⟩
  | cons mid ms ih =>
    intro s
    simp only [List.foldl_cons]
    obtain ⟨i1, i2, i3, i4⟩ := ih (if (mid != "") = true then addMetadataId s mid else s)
    have a1 : (if (mid != "") = true then addMetadataId s mid else s).seen = s.seen := by
      split
      · unfold addMetadataId; split <;> rfl
      · rfl
    have a2 : (if (mid != "") = true then addMetadataId s mid else s).savedCount
        = s.savedCount := by
      split
      · unfold addMetadataId; split <;> rfl
      · rfl
    have a3 : (if (mid != "") = true then addMetadataId s mid else s).imageRun
        = s.imageRun := by
      split
      · unfold addMetadataId; split <;> rfl
      · rfl
    have a4 : (if (mid != "") = true then addMetadataId s mid else s).finished
        = s.finished := by
      split
      · unfold addMetadataId; split <;> rfl
      · rfl
    exact ⟨i1.trans a1, i2.trans a2, i3.trans a3, i4.trans a4⟩

theorem processDownloadJson_frame (cfg : Cfg) (st : SState) (r : RespInput) :
    (processDownloadJson cfg st r).seen = st.seen
      ∧ modeIsImage (processDownloadJson cfg st r).imageRun
        = modeIsImage st.imageRun
      ∧ (processDownloadJson cfg st r).savedCount ≤ st.savedCount + 1 := by
  unfold processDownloadJson
  repeat' (first | split | dsimp only)
  all_goals first
  | exact ⟨rfl, rfl, Nat.le_succ _⟩
  | exact ⟨(handleFileBuffer_seen_mode _ _ _ _ _ _ _ _).1,
      (handleFileBuffer_seen_mode _ _ _ _ _ _ _ _).2,
      handleFileBuffer_savedCount _ _ _ _ _ _ _ _⟩

theorem processEstuary_frame (cfg : Cfg) (st : SState) (r : RespInput) :
    (processEstuary cfg st r).seen = st.seen
      ∧ modeIsImage (processEstuary cfg st r).imageRun = modeIsImage st.imageRun
      ∧ (processEstuary cfg st r).savedCount ≤ st.savedCount + 1 := by
  unfold processEstuary
  repeat' (first | split | dsimp only)
  all_goals first
  | exact ⟨rfl, rfl, Nat.le_succ _⟩
  | exact ⟨(handleFileBuffer_seen_mode _ _ _ _ _ _ _ _).1,
      (handleFileBuffer_seen_mode _ _ _ _ _ _ _ _).2,
      handleFileBuffer_savedCount _ _ _ _ _ _ _ _⟩

theorem processBinary_frame (cfg : Cfg) (st : SState) (r : RespInput) :
    (processBinary cfg st r).seen = st.seen
      ∧ modeIsImage (processBinary cfg st r).imageRun = modeIsImage st.imageRun
      ∧ (processBinary cfg st r).savedCount ≤ st.savedCount + 1 := by
  unfold processBinary
  dsimp only
  split
  · exact ⟨rfl, rfl, Nat.le_succ _⟩
  · split
    · rename_i msg _
      split
      · exact ⟨finish_seen _, by rw [finish_imageRun]; rfl,
          by rw [finish_savedCount]; exact Nat.le_succ _⟩
      · exact ⟨rfl, rfl, Nat.le_succ _⟩
    · rename_i next run2 d2 hok
      obtain ⟨hc, hmm⟩ := saveDownloadRecord_ok cfg.outputDir st.imageRun st.disk
        _ r.fetchEnv cfg.preferCurlDownloads r.nowTag next run2 d2 hok
      obtain ⟨p1, p2, p3, p4⟩ := foldl_pushSave_frame r next.savedFiles
        { st with imageRun := run2, disk := d2, savedCount := st.savedCount + next.savedCount }
      obtain ⟨q1, q2, q3, q4⟩ := foldl_addIds_frame next.metadataIds
        (next.savedFiles.foldl (fun s f =>
          emit { s with savedFiles := s.savedFiles ++ [f] }
            (binaryFileSavedEvent r f))
          { st with imageRun := run2, disk := d2, savedCount := st.savedCount + next.savedCount })
      refine ⟨?_, ?_, ?_⟩
      · repeat' split
        all_goals try rw [finish_seen]
        all_goals try rw [scheduleIdleCheck_seen]
        all_goals rw [q1, p1]
      · repeat' split
        all_goals try rw [finish_imageRun]
        all_goals try rw [scheduleIdleCheck_imageRun]
        all_goals rw [q3, p3]
        all_goals exact hmm
      · repeat' split
        all_goals try rw [finish_savedCount]
        all_goals try rw [scheduleIdleCheck_savedCount]
        all_goals rw [q2, p2]
        all_goals dsimp only
        all_goals omega

theorem contains_append_self (l : List String) (k : String) :
    (l ++ [k]).contains k = true := by
  induction l with
  | nil => simp
  | cons a as ih => simp [ih]

theorem step_resp_dup_noop (cfg : Cfg) (st : SState) (r : RespInput)
    (hmode : modeIsImage st.imageRun = false)
    (hseen : st.seen.contains (dedupeKey r) = true) :
    step cfg st (SEvent.resp r) = st := by
  by_cases hf : st.finished = true
  · simp [step, hf]
  · simp only [step, Bool.not_eq_true] at hf ⊢
    rw [hf]
    simp only [Bool.false_eq_true, if_false]
    exact processResponse_dup_drop cfg st r hmode hseen

theorem foldl_dup_noop (cfg : Cfg) (k : String) (rs : List RespInput)
    (hdup : ∀ r2 ∈ rs, dedupeKey r2 = k) :
    ∀ s : SState, modeIsImage s.imageRun = false → s.seen.contains k = true →
      (rs.map SEvent.resp).foldl (step cfg) s = s := by
  induction rs with
  | nil => intro s _ _; rfl
  | cons a as ih =>
    intro s hm hc
    simp only [List.map_cons, List.foldl_cons]
    rw [step_resp_dup_noop cfg s a hm
      (by rw [hdup a (List.mem_cons_self a as)]; exact hc)]
    exact ih (fun r2 hr2 => hdup r2 (List.mem_cons_of_mem _ hr2)) s hm hc

theorem processResponse_new_key (cfg : Cfg) (st : SState) (r : RespInput)
    (hscope : inScope r = true)
    (hmode : modeIsImage st.imageRun = false)
    (hnew : st.seen.contains (dedupeKey r) = false) :
    (processResponse cfg st r).seen = st.seen ++ [dedupeKey r]
      ∧ modeIsImage (processResponse cfg st r).imageRun = false
      ∧ (processResponse cfg st r).savedCount ≤ st.savedCount + 1 := by
  unfold inScope at hscope
  simp only [Bool.and_eq_true] at hscope
  obtain ⟨hh, hed⟩ := hscope
  have hh' : r.url.hostname = "chatgpt.com" := by simpa using hh
  have h1 : (r.url.hostname != "chatgpt.com") = false := by simp [hh']
  have h2 : (!strStartsWith r.url.pathname "/backend-api/estuary/content"
      && !strStartsWith r.url.pathname "/backend-api/files/download/") = false := by
    simp only [Bool.or_eq_true] at hed
    rcases hed with h | h <;> simp [h]
  unfold processResponse
  simp only [h1, h2, hmode, hnew, Bool.false_eq_true, if_false, Bool.not_false,
    Bool.true_and, Bool.and_false, Bool.false_and, if_true]
  repeat' split
  all_goals first
  | exact ⟨(processDownloadJson_frame _ _ _).1,
      ((processDownloadJson_frame _ _ _).2.1).trans hmode,
      (processDownloadJson_frame _ _ _).2.2⟩
  | exact ⟨(processBinary_frame _ _ _).1,
      ((processBinary_frame _ _ _).2.1).trans hmode,
      (processBinary_frame _ _ _).2.2⟩
  | exact ⟨(processEstuary_frame _ _ _).1,
      ((processEstuary_frame _ _ _).2.1).trans hmode,
      (processEstuary_frame _ _ _).2.2⟩
  | exact ⟨rfl, hmode, Nat.le_succ _⟩

/-- C3: in a non-media session, of a run of in-scope responses that all
carry the same dedupe key (metadata id, or raw URL when no id extracts),
only the first is classified: it records the key in the seen set and
adds at most one saved file, and every later response with that key
leaves the state exactly unchanged, so savedCount counts the key at most
once. -/
theorem nonMedia_duplicate_responses_once (cfg : Cfg) (st : SState)
    (r : RespInput) (rs : List RespInput)
    (hmode : modeIsImage st.imageRun = false)
    (hfin : st.finished = false)
    (hscope : inScope r = true)
    (hnew : st.seen.contains (dedupeKey r) = false)
    (hdup : ∀ r2 ∈ rs, dedupeKey r2 = dedupeKey r) :
    ((r :: rs).map SEvent.resp).foldl (step cfg) st = step cfg st (SEvent.resp r)
      ∧ (step cfg st (SEvent.resp r)).seen = st.seen ++ [dedupeKey r]
      ∧ (step cfg st (SEvent.resp r)).savedCount ≤ st.savedCount + 1 := by
  have hstep : step cfg st (SEvent.resp r) = processResponse cfg st r := by
    simp [step, hfin]
  obtain ⟨hseen, hmode', hcount⟩ := processResponse_new_key cfg st r hscope hmode hnew
  have hcontains : (processResponse cfg st r).seen.contains (dedupeKey r) = true := by
    rw [hseen]
    exact contains_append_self _ _
  refine ⟨?_, ?_, ?_⟩
  · simp only [List.map_cons, List.foldl_cons]
    rw [foldl_dup_noop cfg (dedupeKey r) rs hdup (step cfg st (SEvent.resp r))
      (by rw [hstep]; exact hmode') (by rw [hstep]; exact hcontains)]
  · rw [hstep]
    exact hseen
  · rw [hstep]
    exact hcount

/-- Witness for C3: a concrete non-media session that receives the same
metadata response three times saves it once and drops the duplicates. -/
theorem nonMedia_duplicate_responses_once_witness :
    (modeIsImage (initState {}).imageRun = false
      ∧ (initState {}).finished = false
      ∧ inScope witResp = true
      ∧ (initState {}).seen.contains (dedupeKey witResp) = false
      ∧ ∀ r2 ∈ [witResp, witResp], dedupeKey r2 = dedupeKey witResp)
    ∧ (((witResp :: [witResp, witResp]).map SEvent.resp).foldl (step {}) (initState {})
          = step {} (initState {}) (SEvent.resp witResp)
      ∧ (step {} (initState {}) (SEvent.resp witResp)).seen
          = (initState {}).seen ++ [dedupeKey witResp]
      ∧ (step {} (initState {}) (SEvent.resp witResp)).savedCount
          ≤ (initState {}).savedCount + 1) :=
  ⟨⟨by decide, by decide, by decide, by decide, by decide⟩,
    nonMedia_duplicate_responses_once {} (initState {}) witResp [witResp, witResp]
      (by decide) (by decide) (by decide) (by decide) (by decide)⟩

/-- Witness for C4: the classifier parses x.part2.png as a stream part
whose index matches a spec part segment of the name. -/
theorem parseImageStreamFrameInfo_spec_witness :
    (parseImageStreamFrameInfo (some "x.part2.png")).isPart = true
      ∧ (∃ n, (parseImageStreamFrameInfo (some "x.part2.png")).partIndex = some n
          ∧ specPartSegment
              (parseImageStreamFrameInfo (some "x.part2.png")).fileName.toList n) := by
  have h := parseImageStreamFrameInfo_spec (some "x.part2.png")
  exact ⟨by decide, (h.2.2 (by decide)).2.2 (by decide)⟩

theorem addMetadataId_finished (st : SState) (m : String) :
    (addMetadataId st m).finished = st.finished := by
  unfold addMetadataId
  split <;> rfl

theorem finish_unfinished_idleTimer (st : SState) (hfin : st.finished = false) :
    (finish st).idleTimer = none := by
  unfold finish
  rw [hfin]
  simp

theorem emit_noIdle (st : SState) (e : StreamEvent)
    (h : noIdleAwaitingFinal st) : noIdleAwaitingFinal (emit st e) := h

theorem emit_sawPartFlag (st : SState) (e : StreamEvent) :
    (emit st e).sawImageStreamPartFrame = st.sawImageStreamPartFrame := rfl

theorem emit_sawFinalFlag (st : SState) (e : StreamEvent) :
    (emit st e).sawImageFinalFrame = st.sawImageFinalFrame := rfl

theorem finish_noIdle (st : SState) (h : noIdleAwaitingFinal st) :
    noIdleAwaitingFinal (finish st) := by
  unfold noIdleAwaitingFinal finish
  split
  · exact h
  · intro _ _
    rfl

theorem scheduleIdleCheck_noIdle (cfg : Cfg) (st : SState)
    (hreq : cfg.requireFinalImageFrame = true) :
    noIdleAwaitingFinal (scheduleIdleCheck cfg st) := by
  unfold noIdleAwaitingFinal scheduleIdleCheck
  dsimp only
  split
  · intro _ _; rfl
  · split
    · intro _ _; rfl
    · split
      · intro _ _; rfl
      · rename_i h1 h2 h3
        intro hp hf
        exfalso
        have hp' : st.sawImageStreamPartFrame = true := hp
        have hf' : st.sawImageFinalFrame = false := hf
        exact h2 (by simp [hreq, hp', hf'])

theorem markConvo_noIdle (cfg : Cfg) (st : SState) (d : Option BeaconDetails)
    (hreq : cfg.requireFinalImageFrame = true)
    (h : noIdleAwaitingFinal st) :
    noIdleAwaitingFinal (markConvoStreamCompleted cfg st d) := by
  unfold noIdleAwaitingFinal markConvoStreamCompleted
  dsimp only
  split
  · exact h
  · split
    · exact fun hp hf => h hp hf
    · split
      · exact fun hp hf => h hp hf
      · rename_i h1 h2
        intro hp hf
        exfalso
        have hp' : st.sawImageStreamPartFrame = true := hp
        have hf' : st.sawImageFinalFrame = false := hf
        apply h2
        simp only [emit_sawPartFlag, emit_sawFinalFlag, hreq]
        rw [hp', hf']
        rfl

theorem afterSaveUpdate_noIdle (cfg : Cfg) (st : SState)
    (hreq : cfg.requireFinalImageFrame = true)
    (hfin : st.finished = false) :
    noIdleAwaitingFinal (afterSaveUpdate cfg st) := by
  unfold noIdleAwaitingFinal afterSaveUpdate
  split
  · intro _ _
    exact finish_unfinished_idleTimer st hfin
  · split
    · rename_i h2
      intro hp hf
      exfalso
      have hf' : st.sawImageFinalFrame = false := hf
      rw [hf'] at h2
      simp at h2
    · exact scheduleIdleCheck_noIdle cfg st hreq

theorem recordSavedEntry_noIdle (cfg : Cfg) (st : SState)
    (se : SavedFileEntry) (mid : Option String) (em : EventMeta) (ct : String)
    (hreq : cfg.requireFinalImageFrame = true)
    (hfin : st.finished = false) :
    noIdleAwaitingFinal (recordSavedEntry cfg st se mid em ct) := by
  unfold recordSavedEntry
  dsimp only
  apply afterSaveUpdate_noIdle cfg _ hreq
  repeat' split
  all_goals first
    | exact hfin
    | (rw [addMetadataId_finished]; exact hfin)

theorem handleFileBuffer_noIdle (cfg : Cfg) (st : SState) (bytes : Nat)
    (ct : String) (nameHint : String) (mid : Option String) (em : EventMeta)
    (nowTag : Nat)
    (hreq : cfg.requireFinalImageFrame = true)
    (hfin : st.finished = false)
    (h : noIdleAwaitingFinal st) :
    noIdleAwaitingFinal (handleFileBuffer cfg st bytes ct nameHint mid em nowTag) := by
  unfold handleFileBuffer
  dsimp only
  split
  · exact h
  · exact recordSavedEntry_noIdle cfg _ _ _ _ _ hreq hfin

theorem processDownloadJson_noIdle (cfg : Cfg) (st : SState) (r : RespInput)
    (hreq : cfg.requireFinalImageFrame = true)
    (hfin : st.finished = false)
    (h : noIdleAwaitingFinal st) :
    noIdleAwaitingFinal (processDownloadJson cfg st r) := by
  unfold processDownloadJson
  repeat' (first | split | dsimp only)
  all_goals first
    | exact h
    | exact handleFileBuffer_noIdle _ _ _ _ _ _ _ _ hreq hfin h

theorem processEstuary_noIdle (cfg : Cfg) (st : SState) (r : RespInput)
    (hreq : cfg.requireFinalImageFrame = true)
    (hfin : st.finished = false)
    (h : noIdleAwaitingFinal st) :
    noIdleAwaitingFinal (processEstuary cfg st r) := by
  unfold processEstuary
  repeat' (first | split | dsimp only)
  all_goals first
    | exact h
    | exact handleFileBuffer_noIdle _ _ _ _ _ _ _ _ hreq hfin h

theorem foldl_pushSave_flags (r : RespInput) (l : List SavedFileEntry) :
    ∀ s : SState,
      ((l.foldl (fun s f =>
          emit { s with savedFiles := s.savedFiles ++ [f] }
            (binaryFileSavedEvent r f)) s).idleTimer = s.idleTimer)
      ∧ ((l.foldl (fun s f =>
          emit { s with savedFiles := s.savedFiles ++ [f] }
            (binaryFileSavedEvent r f)) s).sawImageStreamPartFrame
        = s.sawImageStreamPartFrame)
      ∧ ((l.foldl (fun s f =>
          emit { s with savedFiles := s.savedFiles ++ [f] }
            (binaryFileSavedEvent r f)) s).sawImageFinalFrame
        = s.sawImageFinalFrame) := by
  induction l with
  | nil => intro s; exact ⟨rfl, rfl, rfl⟩
  | cons f fs ih =>
    intro s
    simp only [List.foldl_cons]
    exact ih _

theorem foldl_addIds_flags (l : List String) :
    ∀ s : SState,
      ((l.foldl (fun s mid => if mid != "" then addMetadataId s mid else s) s).idleTimer
        = s.idleTimer)
      ∧ ((l.foldl (fun s mid => if mid != "" then addMetadataId s mid else s) s).sawImageStreamPartFrame
        = s.sawImageStreamPartFrame)
      ∧ ((l.foldl (fun s mid => if mid != "" then addMetadataId s mid else s) s).sawImageFinalFrame
        = s.sawImageFinalFrame) := by
  induction l with
  | nil => intro s; exact ⟨rfl, rfl, rfl⟩
  | cons mid ms ih =>
    intro s
    simp only [List.foldl_cons]
    obtain ⟨i1, i2, i3⟩ := ih (if (mid != "") = true then addMetadataId s mid else s)
    have a1 : (if (mid != "") = true then addMetadataId s mid else s).idleTimer
        = s.idleTimer := by
      split
      · unfold addMetadataId; split <;> rfl
      · rfl
    have a2 : (if (mid != "") = true then addMetadataId s mid else s).sawImageStreamPartFrame
        = s.sawImageStreamPartFrame := by
      split
      · unfold addMetadataId; split <;> rfl
      · rfl
    have a3 : (if (mid != "") = true then addMetadataId s mid else s).sawImageFinalFrame
        = s.sawImageFinalFrame := by
      split
      · unfold addMetadataId; split <;> rfl
      · rfl
    exact ⟨i1.trans a1, i2.trans a2, i3.trans a3⟩

theorem processBinary_noIdle (cfg : Cfg) (st : SState) (r : RespInput)
    (hreq : cfg.requireFinalImageFrame = true)
    (hfin : st.finished = false)
    (h : noIdleAwaitingFinal st) :
    noIdleAwaitingFinal (processBinary cfg st r) := by
  unfold processBinary
  dsimp only
  split
  · exact h
  · split
    · split
      · intro hp hf
        exact finish_unfinished_idleTimer _ hfin
      · exact h
    · rename_i next run2 d2 hok
      obtain ⟨p1, p2, p3⟩ := foldl_pushSave_flags r next.savedFiles
        { st with imageRun := run2, disk := d2, savedCount := st.savedCount + next.savedCount }
      obtain ⟨q1, q2, q3⟩ := foldl_addIds_flags next.metadataIds
        (next.savedFiles.foldl (fun s f =>
          emit { s with savedFiles := s.savedFiles ++ [f] }
            (binaryFileSavedEvent r f))
          { st with imageRun := run2, disk := d2, savedCount := st.savedCount + next.savedCount })
      split
      · intro hp hf
        apply finish_unfinished_idleTimer
        rw [(foldl_addIds_frame next.metadataIds _).2.2.2,
          (foldl_pushSave_frame r next.savedFiles _).2.2.2]
        exact hfin
      · split
        · exact scheduleIdleCheck_noIdle cfg _ hreq
        · intro hp hf
          rw [q1, p1]
          exact h (p2.symm.trans (q2.symm.trans hp)) (p3.symm.trans (q3.symm.trans hf))

theorem processResponse_noIdle (cfg : Cfg) (st : SState) (r : RespInput)
    (hreq : cfg.requireFinalImageFrame = true)
    (hfin : st.finished = false)
    (h : noIdleAwaitingFinal st) :
    noIdleAwaitingFinal (processResponse cfg st r) := by
  unfold processResponse
  repeat' (first | split | dsimp only)
  all_goals first
    | exact h
    | exact processDownloadJson_noIdle _ _ _ hreq hfin h
    | exact processBinary_noIdle _ _ _ hreq hfin h
    | exact processEstuary_noIdle _ _ _ hreq hfin h

theorem step_noIdle (cfg : Cfg) (ev : SEvent) (st : SState)
    (hreq : cfg.requireFinalImageFrame = true)
    (h : noIdleAwaitingFinal st) :
    noIdleAwaitingFinal (step cfg st ev) := by
  cases ev with
  | resp r =>
    unfold step
    dsimp only
    split
    · exact h
    · rename_i hf
      exact processResponse_noIdle cfg st r hreq (by simpa using hf) h
  | beacon d =>
    unfold step
    dsimp only
    split
    · exact markConvo_noIdle cfg st d hreq h
    · exact h
  | idleFire =>
    unfold step
    dsimp only
    split
    · exact finish_noIdle st h
    · exact h
  | timeoutFire =>
    unfold step
    dsimp only
    split
    · exact finish_noIdle st h
    · exact h

theorem foldl_noIdle (cfg : Cfg) (hreq : cfg.requireFinalImageFrame = true)
    (evs : List SEvent) :
    ∀ s : SState, noIdleAwaitingFinal s →
      noIdleAwaitingFinal (evs.foldl (step cfg) s) := by
  induction evs with
  | nil => exact fun s h => h
  | cons e es ih =>
    intro s h
    simp only [List.foldl_cons]
    exact ih _ (step_noIdle cfg e s hreq h)

/-- C2: in a media-kind session (requireFinalImageFrame enabled), after
any serialized event trace in whose final state a stream-part frame has
been saved and no final frame has, the idle timer is not armed — no
save, beacon, or timer event along the trace armed it — and an idle
firing in that state leaves the session unchanged, so it cannot finish
the session. -/
theorem mediaIdleTimer_never_armed_awaiting_final (cfg : Cfg)
    (evs : List SEvent)
    (hreq : cfg.requireFinalImageFrame = true)
    (hpart : (runState cfg evs).sawImageStreamPartFrame = true)
    (hnofinal : (runState cfg evs).sawImageFinalFrame = false) :
    (runState cfg evs).idleTimer = none
      ∧ step cfg (runState cfg evs) SEvent.idleFire = runState cfg evs := by
  have h : (runState cfg evs).idleTimer = none :=
    foldl_noIdle cfg hreq evs (initState cfg) (fun _ _ => rfl) hpart hnofinal
  refine ⟨h, ?_⟩
  show (if (runState cfg evs).idleTimer.isSome then finish (runState cfg evs)
      else runState cfg evs) = runState cfg evs
  rw [h]
  rfl

/-- Witness for C2: a concrete media session that saved the part frame
x.part1.png and no final frame has an unarmed idle timer, and an idle
firing is a no-op. -/
theorem mediaIdleTimer_never_armed_awaiting_final_witness :
    (witImageCfg.requireFinalImageFrame = true
      ∧ (runState witImageCfg [SEvent.resp witPartResp]).sawImageStreamPartFrame = true
      ∧ (runState witImageCfg [SEvent.resp witPartResp]).sawImageFinalFrame = false)
    ∧ ((runState witImageCfg [SEvent.resp witPartResp]).idleTimer = none
      ∧ step witImageCfg (runState witImageCfg [SEvent.resp witPartResp]) SEvent.idleFire
          = runState witImageCfg [SEvent.resp witPartResp]) :=
  ⟨⟨by decide, by decide, by decide⟩,
    mediaIdleTimer_never_armed_awaiting_final witImageCfg [SEvent.resp witPartResp]
      (by decide) (by decide) (by decide)⟩

theorem addMetadataId_armedUF (st : SState) (m : String)
    (h : armedUnlessFinished st) : armedUnlessFinished (addMetadataId st m) := by
  unfold armedUnlessFinished addMetadataId
  split <;> exact h

theorem finish_armedUF (st : SState) : armedUnlessFinished (finish st) := by
  unfold armedUnlessFinished finish
  split
  · rename_i hf
    intro hf2
    rw [hf] at hf2
    cases hf2
  · intro hf2
    cases hf2

theorem scheduleIdleCheck_armedUF (cfg : Cfg) (st : SState)
    (h : armedUnlessFinished st) :
    armedUnlessFinished (scheduleIdleCheck cfg st) := by
  unfold armedUnlessFinished scheduleIdleCheck
  dsimp only
  repeat' split
  all_goals exact h

theorem markConvo_armedUF (cfg : Cfg) (st : SState) (d : Option BeaconDetails)
    (h : armedUnlessFinished st) :
    armedUnlessFinished (markConvoStreamCompleted cfg st d) := by
  unfold armedUnlessFinished markConvoStreamCompleted
  dsimp only
  repeat' split
  all_goals exact h

theorem afterSaveUpdate_armedUF (cfg : Cfg) (st : SState)
    (h : armedUnlessFinished st) :
    armedUnlessFinished (afterSaveUpdate cfg st) := by
  unfold afterSaveUpdate
  split
  · exact finish_armedUF st
  · split
    · exact h
    · exact scheduleIdleCheck_armedUF cfg st h

theorem recordSavedEntry_armedUF (cfg : Cfg) (st : SState)
    (se : SavedFileEntry) (mid : Option String) (em : EventMeta) (ct : String)
    (h : armedUnlessFinished st) :
    armedUnlessFinished (recordSavedEntry cfg st se mid em ct) := by
  unfold recordSavedEntry
  dsimp only
  apply afterSaveUpdate_armedUF
  repeat' split
  all_goals first
    | exact h
    | exact addMetadataId_armedUF _ _ h

theorem handleFileBuffer_armedUF (cfg : Cfg) (st : SState) (bytes : Nat)
    (ct : String) (nameHint : String) (mid : Option String) (em : EventMeta)
    (nowTag : Nat) (h : armedUnlessFinished st) :
    armedUnlessFinished (handleFileBuffer cfg st bytes ct nameHint mid em nowTag) := by
  unfold handleFileBuffer
  dsimp only
  split
  · exact h
  · exact recordSavedEntry_armedUF cfg _ _ _ _ _ h

theorem processDownloadJson_armedUF (cfg : Cfg) (st : SState) (r : RespInput)
    (h : armedUnlessFinished st) :
    armedUnlessFinished (processDownloadJson cfg st r) := by
  unfold processDownloadJson
  repeat' (first | split | dsimp only)
  all_goals first
    | exact h
    | exact handleFileBuffer_armedUF _ _ _ _ _ _ _ _ h

theorem processEstuary_armedUF (cfg : Cfg) (st : SState) (r : RespInput)
    (h : armedUnlessFinished st) :
    armedUnlessFinished (processEstuary cfg st r) := by
  unfold processEstuary
  repeat' (first | split | dsimp only)
  all_goals first
    | exact h
    | exact handleFileBuffer_armedUF _ _ _ _ _ _ _ _ h

theorem foldl_pushSave_armed (r : RespInput) (l : List SavedFileEntry) :
    ∀ s : SState,
      (l.foldl (fun s f =>
          emit { s with savedFiles := s.savedFiles ++ [f] }
            (binaryFileSavedEvent r f)) s).timeoutArmed = s.timeoutArmed := by
  induction l with
  | nil => intro s; rfl
  | cons f fs ih =>
    intro s
    simp only [List.foldl_cons]
    exact ih _

theorem foldl_addIds_armed (l : List String) :
    ∀ s : SState,
      (l.foldl (fun s mid => if mid != "" then addMetadataId s mid else s) s).timeoutArmed
        = s.timeoutArmed := by
  induction l with
  | nil => intro s; rfl
  | cons mid ms ih =>
    intro s
    simp only [List.foldl_cons]
    have a1 : (if (mid != "") = true then addMetadataId s mid else s).timeoutArmed
        = s.timeoutArmed := by
      split
      · unfold addMetadataId; split <;> rfl
      · rfl
    exact (ih _).trans a1

theorem processBinary_armedUF (cfg : Cfg) (st : SState) (r : RespInput)
    (h : armedUnlessFinished st) :
    armedUnlessFinished (processBinary cfg st r) := by
  unfold processBinary
  dsimp only
  split
  · exact h
  · split
    · split
      · exact finish_armedUF _
      · exact h
    · rename_i next run2 d2 hok
      have p1 := foldl_pushSave_armed r next.savedFiles
        { st with imageRun := run2, disk := d2, savedCount := st.savedCount + next.savedCount }
      have p2 := (foldl_pushSave_frame r next.savedFiles
        { st with imageRun := run2, disk := d2, savedCount := st.savedCount + next.savedCount }).2.2.2
      have q1 := foldl_addIds_armed next.metadataIds
        (next.savedFiles.foldl (fun s f =>
          emit { s with savedFiles := s.savedFiles ++ [f] }
            (binaryFileSavedEvent r f))
          { st with imageRun := run2, disk := d2, savedCount := st.savedCount + next.savedCount })
      have q2 := (foldl_addIds_frame next.metadataIds
        (next.savedFiles.foldl (fun s f =>
          emit { s with savedFiles := s.savedFiles ++ [f] }
            (binaryFileSavedEvent r f))
          { st with imageRun := run2, disk := d2, savedCount := st.savedCount + next.savedCount })).2.2.2
      have hfold : armedUnlessFinished
          (next.metadataIds.foldl (fun s mid => if mid != "" then addMetadataId s mid else s)
            (next.savedFiles.foldl (fun s f =>
              emit { s with savedFiles := s.savedFiles ++ [f] }
                (binaryFileSavedEvent r f))
              { st with imageRun := run2, disk := d2, savedCount := st.savedCount + next.savedCount })) := by
        intro hf
        rw [q1, p1]
        exact h (p2.symm.trans (q2.symm.trans hf))
      split
      · exact finish_armedUF _
      · split
        · exact scheduleIdleCheck_armedUF cfg _ hfold
        · exact hfold

theorem processResponse_armedUF (cfg : Cfg) (st : SState) (r : RespInput)
    (h : armedUnlessFinished st) :
    armedUnlessFinished (processResponse cfg st r) := by
  unfold processResponse
  repeat' (first | split | dsimp only)
  all_goals first
    | exact h
    | exact processDownloadJson_armedUF _ _ _ h
    | exact processBinary_armedUF _ _ _ h
    | exact processEstuary_armedUF _ _ _ h

theorem step_armedUF (cfg : Cfg) (ev : SEvent) (st : SState)
    (h : armedUnlessFinished st) : armedUnlessFinished (step cfg st ev) := by
  cases ev with
  | resp r =>
    unfold step
    dsimp only
    split
    · exact h
    · exact processResponse_armedUF cfg st r h
  | beacon d =>
    unfold step
    dsimp only
    split
    · exact markConvo_armedUF cfg st d h
    · exact h
  | idleFire =>
    unfold step
    dsimp only
    split
    · exact finish_armedUF st
    · exact h
  | timeoutFire =>
    unfold step
    dsimp only
    split
    · exact finish_armedUF st
    · exact h

theorem foldl_armedUF (cfg : Cfg) (evs : List SEvent) :
    ∀ s : SState, armedUnlessFinished s →
      armedUnlessFinished (evs.foldl (step cfg) s) := by
  induction evs with
  | nil => exact fun s h => h
  | cons e es ih =>
    intro s h
    simp only [List.foldl_cons]
    exact ih _ (step_armedUF cfg e s h)

theorem step_timeout_finishes (cfg : Cfg) (s : SState)
    (h : armedUnlessFinished s) :
    (step cfg s SEvent.timeoutFire).finished = true := by
  unfold step
  dsimp only
  by_cases hf : s.finished = true
  · split
    · unfold finish
      rw [if_pos hf]
      exact hf
    · exact hf
  · have hf' : s.finished = false := by simpa using hf
    rw [if_pos (h hf')]
    unfold finish
    rw [hf']
    simp

/-- C8: a hard timeout event arriving after any activity moves the
session to finished; a finished session drops every further response
unchanged; no event on a finished session changes savedFiles or
savedCount or clears finished; and the aggregate reported by the
collector is built from the state after the full event trace is
drained. -/
theorem hard_timeout_terminates_and_drains (cfg : Cfg) (evs : List SEvent) :
    (runState cfg (evs ++ [SEvent.timeoutFire])).finished = true
      ∧ (∀ (s : SState) (r : RespInput), s.finished = true →
          step cfg s (SEvent.resp r) = s)
      ∧ (∀ (s : SState) (ev : SEvent), s.finished = true →
          (step cfg s ev).savedFiles = s.savedFiles
            ∧ (step cfg s ev).savedCount = s.savedCount
            ∧ (step cfg s ev).finished = true)
      ∧ (runCollect cfg evs).result.savedCount = (runState cfg evs).savedCount
      ∧ (runCollect cfg evs).result.savedFiles = (runState cfg evs).savedFiles := by
  have harm : armedUnlessFinished (runState cfg evs) :=
    foldl_armedUF cfg evs (initState cfg) (fun _ => rfl)
  refine ⟨?_, ?_, ?_, rfl, rfl⟩
  · show (List.foldl (step cfg) (initState cfg) (evs ++ [SEvent.timeoutFire])).finished = true
    rw [List.foldl_append]
    exact step_timeout_finishes cfg (runState cfg evs) harm
  · intro s r hf
    unfold step
    dsimp only
    rw [if_pos hf]
  · intro s ev hf
    cases ev with
    | resp r =>
      unfold step
      dsimp only
      rw [if_pos hf]
      exact ⟨rfl, rfl, hf⟩
    | beacon d =>
      unfold step
      dsimp only
      split
      · unfold markConvoStreamCompleted
        dsimp only
        repeat' split
        all_goals exact ⟨rfl, rfl, hf⟩
      · exact ⟨rfl, rfl, hf⟩
    | idleFire =>
      unfold step
      dsimp only
      split
      · unfold finish
        rw [if_pos hf]
        exact ⟨rfl, rfl, hf⟩
      · exact ⟨rfl, rfl, hf⟩
    | timeoutFire =>
      unfold step
      dsimp only
      split
      · unfold finish
        rw [if_pos hf]
        exact ⟨rfl, rfl, hf⟩
      · exact ⟨rfl, rfl, hf⟩

/-- Witness for C8 at the empty trace: the timeout fires on the fresh
session and finishes it, and a finished session drops a further
response unchanged. -/
theorem hard_timeout_terminates_and_drains_witness :
    (runState {} ([] ++ [SEvent.timeoutFire])).finished = true
      ∧ step {} (finish (initState {})) (SEvent.resp witResp) = finish (initState {}) :=
  ⟨(hard_timeout_terminates_and_drains {} []).1,
    (hard_timeout_terminates_and_drains {} []).2.1 (finish (initState {})) witResp
      (by decide)⟩

theorem diskSize_diskSet_self (d : Disk) (p : String) (v : Nat) :
    diskSize (diskSet d p v) p = some v := by
  unfold diskSize diskSet
  simp

/-- C10: when the final session state saved at least one file, the
collector's tail copies the most recently saved file to the fixed
latest.<ext> path in the output directory (unless it already is that
path); after the copy, the latest path holds the copied content
whatever was there before; and the copy shows up neither in the
reported savedFiles nor in savedCount. -/
theorem latest_copy_effect (cfg : Cfg) (evs : List SEvent)
    (last : SavedFileEntry)
    (hlast : (runState cfg evs).savedFiles.getLast? = some last) :
    ((runCollect cfg evs).latestCopy
        = if last.filePath != latestPathFor cfg last
          then some (last.filePath, latestPathFor cfg last) else none)
      ∧ ((last.filePath != latestPathFor cfg last) = true →
          diskSize (runCollect cfg evs).diskAfter (latestPathFor cfg last)
            = some ((diskSize (runState cfg evs).disk last.filePath).getD 0))
      ∧ (runCollect cfg evs).result.savedFiles = (runState cfg evs).savedFiles
      ∧ (runCollect cfg evs).result.savedCount = (runState cfg evs).savedCount := by
  unfold runCollect latestPathFor
  dsimp only
  rw [hlast]
  dsimp only
  split
  · rename_i hne
    exact ⟨rfl, fun _ => diskSize_diskSet_self _ _ _, rfl, rfl⟩
  · rename_i hne
    exact ⟨rfl, fun hcontr => absurd hcontr hne, rfl, rfl⟩

/-- Witness for C10: the concrete session that saved /out/download-0.png
copies it to /out/latest.png and reports it unchanged. -/
theorem latest_copy_effect_witness :
    ((runState {} [SEvent.resp witEchoResp]).savedFiles.getLast? = some witLatestEntry)
    ∧ (((runCollect {} [SEvent.resp witEchoResp]).latestCopy
        = if witLatestEntry.filePath != latestPathFor {} witLatestEntry
          then some (witLatestEntry.filePath, latestPathFor {} witLatestEntry) else none)
      ∧ ((witLatestEntry.filePath != latestPathFor {} witLatestEntry) = true →
          diskSize (runCollect {} [SEvent.resp witEchoResp]).diskAfter
              (latestPathFor {} witLatestEntry)
            = some ((diskSize (runState {} [SEvent.resp witEchoResp]).disk
                witLatestEntry.filePath).getD 0))
      ∧ (runCollect {} [SEvent.resp witEchoResp]).result.savedFiles
          = (runState {} [SEvent.resp witEchoResp]).savedFiles
      ∧ (runCollect {} [SEvent.resp witEchoResp]).result.savedCount
          = (runState {} [SEvent.resp witEchoResp]).savedCount) :=
  ⟨by decide,
    latest_copy_effect {} [SEvent.resp witEchoResp] witLatestEntry (by decide)⟩

/-- Refutation of C6 as stated: the standalone save path
(saveDownloadFromUrl, used by the download handler and the DOM prober)
performs no uploaded-reference-name check — with ref.png uploaded as a
reference, a direct binary response named ref.png is saved (savedCount 1,
file name ref.png, no file_ignored event), even though the in-session
check would have matched it. -/
theorem directPath_saves_reference_named_file :
    ((saveDownloadFromUrl "/out" none [] witUrlDl
        { contentType := "image/png", dispositionName := "ref.png", bytes := 7 }
        {} true 0).toOption.map
          (fun t => (t.1.savedCount, t.1.savedFiles.map (fun e => e.fileName),
            t.1.streamEvents.all (fun ev => ev.type != "file_ignored")))
      = some (1, ["ref.png"], true))
    ∧ shouldIgnoreCapturedFile witCfgRef "ref.png" "" = true := by
  decide

theorem shouldIgnore_of_matching_reference (cfg : Cfg) (n src u : String)
    (hu : u ∈ cfg.ignoreFileNames)
    (hnorm : normalizeMatchFileName n = normalizeMatchFileName u)
    (hne : normalizeMatchFileName u ≠ "") :
    shouldIgnoreCapturedFile cfg n src = true := by
  have hmem : normalizeMatchFileName u ∈ ignoredFileNameSet cfg := by
    unfold ignoredFileNameSet
    rw [mem_dedupFirst]
    refine ⟨?_, by simp⟩
    rw [List.mem_filter]
    exact ⟨List.mem_map_of_mem _ hu, by simpa using hne⟩
  unfold shouldIgnoreCapturedFile
  dsimp only
  have hemp : (ignoredFileNameSet cfg).isEmpty = false := by
    cases hset : ignoredFileNameSet cfg with
    | nil => rw [hset] at hmem; cases hmem
    | cons a l => rfl
  rw [hemp]
  simp only [Bool.false_eq_true, if_false]
  have hcont : (ignoredFileNameSet cfg).contains (normalizeMatchFileName n) = true := by
    rw [hnorm]
    simpa using hmem
  have hnf : (normalizeMatchFileName n != "") = true := by
    rw [hnorm]
    simpa using hne
  rw [hnf, hcont]
  simp

/-- C6 amended: on the in-session capture paths (the shared
handleFileBuffer save routine and the direct binary branch of
processResponse), a candidate whose resolved name matches an uploaded
reference file name under case-insensitive basename normalization is
ignored: a single file_ignored event is emitted and nothing is saved.
The standalone saveDownloadFromUrl path performs no such check. -/
theorem reference_named_candidate_ignored_in_session (cfg : Cfg) (st : SState)
    (bytes : Nat) (ct : String) (n : String) (mid : Option String)
    (em : EventMeta) (nowTag : Nat) (r : RespInput) (u : String)
    (hu : u ∈ cfg.ignoreFileNames)
    (hnorm : normalizeMatchFileName n = normalizeMatchFileName u)
    (hne : normalizeMatchFileName u ≠ "")
    (hbin : binaryNameHint st r = n) :
    ((handleFileBuffer cfg st bytes ct n mid em nowTag).savedFiles = st.savedFiles
      ∧ (handleFileBuffer cfg st bytes ct n mid em nowTag).savedCount = st.savedCount
      ∧ ∃ ev, (handleFileBuffer cfg st bytes ct n mid em nowTag).streamEvents
            = st.streamEvents ++ [ev] ∧ ev.type = "file_ignored")
    ∧ (processBinary cfg st r = emit st (binaryIgnoredEvent r n)
      ∧ (emit st (binaryIgnoredEvent r n)).savedFiles = st.savedFiles
      ∧ (emit st (binaryIgnoredEvent r n)).savedCount = st.savedCount) := by
  have h1 := shouldIgnore_of_matching_reference cfg n (em.sourceFileName.getD "") u
    hu hnorm hne
  have h2 := shouldIgnore_of_matching_reference cfg n "" u hu hnorm hne
  constructor
  · unfold handleFileBuffer
    rw [if_pos h1]
    exact ⟨rfl, rfl, ⟨_, rfl, rfl⟩⟩
  · refine ⟨?_, rfl, rfl⟩
    unfold processBinary
    dsimp only
    rw [hbin, if_pos h2]

/-- Witness for C6 (amended): a session with reference ref.png ignores a
buffered candidate named REF.PNG and a direct binary response whose
disposition name is ref.png. -/
theorem reference_named_candidate_ignored_in_session_witness :
    ("ref.png" ∈ witCfgRef.ignoreFileNames
      ∧ normalizeMatchFileName "REF.PNG" = normalizeMatchFileName "ref.png"
      ∧ normalizeMatchFileName "ref.png" ≠ ""
      ∧ binaryNameHint (initState witCfgRef)
          { url := witUrlDl, contentType := "image/png", dispositionName := "REF.PNG" }
          = "REF.PNG")
    ∧ (((handleFileBuffer witCfgRef (initState witCfgRef) 7 "image/png" "REF.PNG"
          none {} 0).savedFiles = (initState witCfgRef).savedFiles
      ∧ (handleFileBuffer witCfgRef (initState witCfgRef) 7 "image/png" "REF.PNG"
          none {} 0).savedCount = (initState witCfgRef).savedCount
      ∧ ∃ ev, (handleFileBuffer witCfgRef (initState witCfgRef) 7 "image/png" "REF.PNG"
            none {} 0).streamEvents = (initState witCfgRef).streamEvents ++ [ev]
          ∧ ev.type = "file_ignored")
    ∧ (processBinary witCfgRef (initState witCfgRef)
          { url := witUrlDl, contentType := "image/png", dispositionName := "REF.PNG" }
        = emit (initState witCfgRef)
            (binaryIgnoredEvent
              { url := witUrlDl, contentType := "image/png", dispositionName := "REF.PNG" }
              "REF.PNG")
      ∧ (emit (initState witCfgRef)
            (binaryIgnoredEvent
              { url := witUrlDl, contentType := "image/png", dispositionName := "REF.PNG" }
              "REF.PNG")).savedFiles = (initState witCfgRef).savedFiles
      ∧ (emit (initState witCfgRef)
            (binaryIgnoredEvent
              { url := witUrlDl, contentType := "image/png", dispositionName := "REF.PNG" }
              "REF.PNG")).savedCount = (initState witCfgRef).savedCount)) :=
  ⟨⟨by decide, by decide, by decide, by decide⟩,
    reference_named_candidate_ignored_in_session witCfgRef (initState witCfgRef)
      7 "image/png" "REF.PNG" none {} 0
      { url := witUrlDl, contentType := "image/png", dispositionName := "REF.PNG" }
      "ref.png" (by decide) (by decide) (by decide) (by decide)⟩

theorem selectCandidate_t1 (ph : Phase1State) (ex ord : List Candidate)
    (c : Candidate) (h : findByIdRev ex ph.preferredIds = some c) :
    selectCandidate ph ex ord = some c := by
  unfold selectCandidate
  rw [h]

theorem selectCandidate_t2 (ph : Phase1State) (ex ord : List Candidate)
    (c : Candidate) (h1 : findByIdRev ex ph.preferredIds = none)
    (h2 : findByIdRev ex ph.finalIds = some c) :
    selectCandidate ph ex ord = some c := by
  unfold selectCandidate
  rw [h1, h2]

theorem selectCandidate_t3 (ph : Phase1State) (ex ord : List Candidate)
    (c : Candidate) (h1 : findByIdRev ex ph.preferredIds = none)
    (h2 : findByIdRev ex ph.finalIds = none)
    (h3 : ex.find? (fun c =>
        c.isFinalStreamFrame
          || (c.sourceFileName != ""
              && !isLikelyImageStreamPartName c.sourceFileName)) = some c) :
    selectCandidate ph ex ord = some c := by
  unfold selectCandidate
  rw [h1, h2, h3]

theorem selectCandidate_t4 (ph : Phase1State) (ex ord : List Candidate)
    (c : Candidate) (h1 : findByIdRev ex ph.preferredIds = none)
    (h2 : findByIdRev ex ph.finalIds = none)
    (h3 : ex.find? (fun c =>
        c.isFinalStreamFrame
          || (c.sourceFileName != ""
              && !isLikelyImageStreamPartName c.sourceFileName)) = none)
    (h4 : ex.head? = some c) :
    selectCandidate ph ex ord = some c := by
  unfold selectCandidate
  rw [h1, h2, h3, h4]

/-- Refutation of C1's metadata-id clause: in a media run whose final
frame (id idF) arrives before a later part frame (id idP), the most
recent metadata id known for the run is idP, yet the reduced aggregate's
single file carries idF, the selected candidate's own id. -/
theorem retainLatest_id_not_most_recent :
    ((runCollect witMediaCfg swapFramesTrace).result.metadataIds.getLast?
        = some "idP")
    ∧ ((retainLatestImageOnly (runCollect witMediaCfg swapFramesTrace).result
          (runCollect witMediaCfg swapFramesTrace).diskAfter).1.savedFiles.map
            (fun f => f.metadataId) = [some "idF"])
    ∧ (some "idF" : Option String) ≠ some "idP" := by
  decide

/-- C1 amended: whenever retainLatestImageOnly's cascade selects a
candidate, the rewritten aggregate reports exactly one saved file — the
selected candidate's file, carrying the selected candidate's metadata id
when it has one and otherwise the most recently recorded id — and the
reducer deletes the file of every other candidate of the run (each
distinct non-empty candidate path other than the selected one); the
cascade prefers, in order, the most recently recorded final-frame id
preceded by a part frame that still exists on disk, then the most
recently recorded final-frame id on disk, then the most recent on-disk
candidate that looks final, then the most recent on-disk candidate of
any kind. -/
theorem retainLatest_contract (sr : SaveResult) (d : Disk)
    (selected : Candidate)
    (hne : (orderedOf sr).isEmpty = false)
    (hsel : selectCandidate (phaseOf sr) (existingOf sr d) (orderedOf sr)
        = some selected) :
    ((retainLatestImageOnly sr d).1.savedCount = 1)
    ∧ (∃ entry, (retainLatestImageOnly sr d).1.savedFiles = [entry]
        ∧ entry.filePath = selected.filePath
        ∧ entry.metadataId
            = (match selected.metadataId with
               | some mid => some mid
               | none => sr.metadataIds.getLast?))
    ∧ ((retainLatestImageOnly sr d).2
        = dedupFirst [] (((orderedOf sr).map (fun c => c.filePath)).filter
            (fun p => p != "" && p != selected.filePath)))
    ∧ (∀ c, findByIdRev (existingOf sr d) (phaseOf sr).preferredIds = some c →
        selected = c)
    ∧ (findByIdRev (existingOf sr d) (phaseOf sr).preferredIds = none →
        ∀ c, findByIdRev (existingOf sr d) (phaseOf sr).finalIds = some c →
          selected = c)
    ∧ (findByIdRev (existingOf sr d) (phaseOf sr).preferredIds = none →
        findByIdRev (existingOf sr d) (phaseOf sr).finalIds = none →
        ∀ c, (existingOf sr d).find? (fun c =>
            c.isFinalStreamFrame
              || (c.sourceFileName != ""
                  && !isLikelyImageStreamPartName c.sourceFileName)) = some c →
          selected = c)
    ∧ (findByIdRev (existingOf sr d) (phaseOf sr).preferredIds = none →
        findByIdRev (existingOf sr d) (phaseOf sr).finalIds = none →
        (existingOf sr d).find? (fun c =>
            c.isFinalStreamFrame
              || (c.sourceFileName != ""
                  && !isLikelyImageStreamPartName c.sourceFileName)) = none →
        ∀ c, (existingOf sr d).head? = some c → selected = c) := by
  have c4 : ∀ c, findByIdRev (existingOf sr d) (phaseOf sr).preferredIds = some c →
      selected = c := by
    intro c hc
    exact (Option.some.inj
      ((selectCandidate_t1 (phaseOf sr) (existingOf sr d) (orderedOf sr) c hc).symm.trans
        hsel)).symm
  have c5 : findByIdRev (existingOf sr d) (phaseOf sr).preferredIds = none →
      ∀ c, findByIdRev (existingOf sr d) (phaseOf sr).finalIds = some c →
        selected = c := by
    intro h1 c hc
    exact (Option.some.inj
      ((selectCandidate_t2 (phaseOf sr) (existingOf sr d) (orderedOf sr) c h1 hc).symm.trans
        hsel)).symm
  have c6 : findByIdRev (existingOf sr d) (phaseOf sr).preferredIds = none →
      findByIdRev (existingOf sr d) (phaseOf sr).finalIds = none →
      ∀ c, (existingOf sr d).find? (fun c =>
          c.isFinalStreamFrame
            || (c.sourceFileName != ""
                && !isLikelyImageStreamPartName c.sourceFileName)) = some c →
        selected = c := by
    intro h1 h2 c hc
    exact (Option.some.inj
      ((selectCandidate_t3 (phaseOf sr) (existingOf sr d) (orderedOf sr) c h1 h2 hc).symm.trans
        hsel)).symm
  have c7 : findByIdRev (existingOf sr d) (phaseOf sr).preferredIds = none →
      findByIdRev (existingOf sr d) (phaseOf sr).finalIds = none →
      (existingOf sr d).find? (fun c =>
          c.isFinalStreamFrame
            || (c.sourceFileName != ""
                && !isLikelyImageStreamPartName c.sourceFileName)) = none →
      ∀ c, (existingOf sr d).head? = some c → selected = c := by
    intro h1 h2 h3 c hc
    exact (Option.some.inj
      ((selectCandidate_t4 (phaseOf sr) (existingOf sr d) (orderedOf sr) c h1 h2 h3 hc).symm.trans
        hsel)).symm
  unfold orderedOf phaseOf at hne
  unfold existingOf orderedOf phaseOf at hsel ⊢
  unfold retainLatestImageOnly
  dsimp only
  rw [hne]
  simp only [Bool.false_eq_true, if_false]
  rw [hsel]
  dsimp only
  exact ⟨rfl, ⟨_, rfl, rfl, rfl⟩, rfl, c4, c5, c6, c7⟩

/-- Witness for C1 on the spec's example run: from x.part1.png,
x.part2.png, x.png the reducer keeps the single candidate derived from
x.png and unlinks the paths of the two part frames. -/
theorem retainLatest_contract_witness :
    ((orderedOf (runCollect witMediaCfg specFramesTrace).result).isEmpty = false
      ∧ selectCandidate (phaseOf (runCollect witMediaCfg specFramesTrace).result)
          (existingOf (runCollect witMediaCfg specFramesTrace).result
            (runCollect witMediaCfg specFramesTrace).diskAfter)
          (orderedOf (runCollect witMediaCfg specFramesTrace).result)
        = some witSelected)
    ∧ ((retainLatestImageOnly (runCollect witMediaCfg specFramesTrace).result
          (runCollect witMediaCfg specFramesTrace).diskAfter).1.savedCount = 1)
    ∧ ((retainLatestImageOnly (runCollect witMediaCfg specFramesTrace).result
          (runCollect witMediaCfg specFramesTrace).diskAfter).2
        = ["/out/image-1.png", "/out/image-2.png"])
    ∧ witSelected.filePath = "/out/x.png" :=
  ⟨⟨by decide, by decide⟩,
    (retainLatest_contract (runCollect witMediaCfg specFramesTrace).result
      (runCollect witMediaCfg specFramesTrace).diskAfter witSelected
      (by decide) (by decide)).1,
    by decide, by decide⟩

end KthxMedia
